import Mathlib

/-!
# Verification of the TIX remote-control core (tix-core)

Shallow embedding of the parts of `tix-core` that the checked claims are
about, translated from the Rust sources:

* `src/tix-core/src/header.rs`   — `PacketHeader`, 64-byte wire layout
* `src/tix-core/src/packet.rs`   — `Packet`, builders, (de)serialisation
* `src/tix-core/src/flags.rs`    — `ProtocolFlags` (bitflags on `u64`)
* `src/tix-core/src/codec/mod.rs`— `TixCodec::decode`
* `src/tix-core/src/state/connection.rs` — `ConnectionPhase`
* `src/tix-core/src/rdp/{delta,encoder,decoder,bandwidth}.rs`

Modelling conventions:

* Machine integers are `Nat` (unsigned) or `Int` (signed), with explicit
  `% 2^w` where the source can overflow; bytes are `Nat` values.
* Byte buffers are `List Nat`; Rust slice expressions `&data[a..b]`
  become `(data.drop a).take (b - a)`.
* `&mut self` methods that report errors without mutating are modelled as
  functions returning both the `Except`-result and the successor state.
* The Blake3 hash and the zstd entropy coder are external collaborators
  (spec §6); they are parameters (`hash`, `compress`, `decompress`) of the
  definitions that call them, never inspected.
* Rust `Instant` timestamps are opaque `Nat` nanosecond counts.
-/

namespace Tix

/-- Decidable equality for `Except`, used so concrete decode results can
be checked by `decide`. -/
instance {e a : Type} [DecidableEq e] [DecidableEq a] : DecidableEq (Except e a) :=
  fun x y =>
  match x, y with
  | .error u, .error v =>
    if h : u = v then .isTrue (by rw [h])
    else .isFalse (by intro c; injection c; contradiction)
  | .error _, .ok _ => .isFalse (by intro c; exact Except.noConfusion c)
  | .ok _, .error _ => .isFalse (by intro c; exact Except.noConfusion c)
  | .ok u, .ok v =>
    if h : u = v then .isTrue (by rw [h])
    else .isFalse (by intro c; injection c; contradiction)

/-- Little-endian serialisation of `x` into `n` bytes
(`u32::to_le_bytes` / `u64::to_le_bytes`, with the truncation those
fixed-width types imply). -/
def toLeBytes : Nat → Nat → List Nat
  | 0, _ => []
  | n + 1, x => (x % 256) :: toLeBytes n (x / 256)

/-- Little-endian deserialisation (`u32::from_le_bytes` / `u64::from_le_bytes`). -/
def fromLeBytes : List Nat → Nat
  | [] => 0
  | b :: bs => b % 256 + 256 * fromLeBytes bs

theorem toLeBytes_length (n x : Nat) : (toLeBytes n x).length = n := by
  induction n generalizing x with
  | zero => rfl
  | succ n ih => simp [toLeBytes, ih]

theorem fromLeBytes_toLeBytes (n x : Nat) :
    fromLeBytes (toLeBytes n x) = x % 256 ^ n := by
  induction n generalizing x with
  | zero => simp [toLeBytes, fromLeBytes, Nat.mod_one]
  | succ n ih =>
    simp only [toLeBytes, fromLeBytes, ih, Nat.mod_mod_of_dvd x (dvd_refl 256)]
    have h := @Nat.mod_mul 256 (256 ^ n) x
    rw [Nat.pow_succ, Nat.mul_comm (256 ^ n) 256, h]

/-- `(l₁ ++ l₂).take n = l₁` when `l₁.length = n`. -/
theorem take_app {α : Type} (l₁ l₂ : List α) (n : Nat) (h : l₁.length = n) :
    (l₁ ++ l₂).take n = l₁ := by
  subst h; exact List.take_left l₁ l₂

/-- `(l₁ ++ l₂).drop n = l₂` when `l₁.length = n`. -/
theorem drop_app {α : Type} (l₁ l₂ : List α) (n : Nat) (h : l₁.length = n) :
    (l₁ ++ l₂).drop n = l₂ := by
  subst h; exact List.drop_left l₁ l₂

-- ── Error taxonomy (src/tix-core/src/error.rs) ───────────────────

/-- `TixError` variants reachable from the embedded operations.
String payloads carry the same role as the Rust `&'static str` /
`String` arguments. -/
inductive TixError where
  | InvalidMagic : TixError
  | InvalidHeader : String → TixError
  | ChecksumMismatch : TixError
  | UnknownVariant : String → Nat → TixError
  | ProtocolViolation : String → TixError
  | PayloadTooLarge : Nat → Nat → TixError
  | InvalidPacketLength : Nat → Nat → TixError
  | FrameTooLarge : Nat → Nat → TixError
  | Other : String → TixError
  deriving DecidableEq, Repr

-- ── Message types (src/tix-core/src/message.rs) ──────────────────

/-- `MessageType`: Command = 0x1, Response = 0x2. -/
inductive MessageType where
  | Command : MessageType
  | Response : MessageType
  deriving DecidableEq, Repr

/-- `Command` — all command discriminants of the TIX protocol. -/
inductive Command where
  | Ping | Hello | Goodbye | Heartbeat
  | ShellExecute | ShellCancel | ShellResize
  | ListDir | FileRead | FileWrite | ListDrives | Copy | Upload | Download
  | SystemInfo | SystemAction | ProcessList
  | ScreenStart | ScreenStop | ScreenFrame | InputMouse | InputKeyboard
  | UpdateCheck | UpdatePush | UpdateApply
  deriving DecidableEq, Repr

/-- The `#[repr(u64)]` discriminant of each `Command` variant. -/
def Command.toNat : Command → Nat
  | .Ping => 0x0001
  | .Hello => 0x0002
  | .Goodbye => 0x0003
  | .Heartbeat => 0x0004
  | .ShellExecute => 0x0101
  | .ShellCancel => 0x0102
  | .ShellResize => 0x0103
  | .ListDir => 0x0201
  | .FileRead => 0x0202
  | .FileWrite => 0x0203
  | .ListDrives => 0x0204
  | .Copy => 0x0205
  | .Upload => 0x0206
  | .Download => 0x0207
  | .SystemInfo => 0x0301
  | .SystemAction => 0x0302
  | .ProcessList => 0x0303
  | .ScreenStart => 0x0401
  | .ScreenStop => 0x0402
  | .ScreenFrame => 0x0403
  | .InputMouse => 0x0404
  | .InputKeyboard => 0x0405
  | .UpdateCheck => 0x0501
  | .UpdatePush => 0x0502
  | .UpdateApply => 0x0503

-- ── Protocol flags (src/tix-core/src/flags.rs) ───────────────────

/-- Union of all bits named in the `bitflags!` block for `ProtocolFlags`
(COMPRESSED | ENCRYPTED | FINAL_FRAGMENT | ACK_REQUESTED | STREAMING). -/
def ProtocolFlags.KNOWN_BITS : Nat := 0x1F

/-- `ProtocolFlags::from(u64)` → `from_bits_truncate`: unknown bits are
dropped. A `ProtocolFlags` value itself is represented by its raw `u64`
bits (`from_bits_retain` is the identity on the representation, so a
caller can hold any 64-bit pattern). -/
def ProtocolFlags.from_bits_truncate (v : Nat) : Nat :=
  v &&& ProtocolFlags.KNOWN_BITS

-- ── Packet header (src/tix-core/src/header.rs) ───────────────────

/-- `HEADER_SIZE` — fixed size of the on-wire header. -/
def HEADER_SIZE : Nat := 64

/-- Current protocol magic `b"TIX1"`. -/
def MAGIC : List Nat := [0x54, 0x49, 0x58, 0x31]

/-- Legacy protocol magic `b"TIX0"`, still accepted on decode. -/
def MAGIC0 : List Nat := [0x54, 0x49, 0x58, 0x30]

/-- `PacketHeader` — 64 bytes. `message_type` is the stored `u32` slot
(which actually carries the command discriminant, see
`PacketHeader.new`), `flags` the raw `u64` bitmask. -/
structure PacketHeader where
  magic : List Nat
  checksum : List Nat
  message_type : Nat
  flags : Nat
  request_id : Nat
  payload_length : Nat
  deriving DecidableEq, Repr

namespace PacketHeader

/-- `PacketHeader::new`. The command discriminant is stored in the
`message_type` slot (`command as u32`); responses are marked by setting
bit 63 of the flags. Note the incoming `flags` bits are passed through
unmasked. -/
def new (message_type : MessageType) (command : Command) (flags : Nat)
    (request_id : Nat) (payload_length : Nat) : PacketHeader :=
  let effective_flags :=
    if message_type = MessageType.Response then flags ||| (1 <<< 63) else flags
  { magic := MAGIC
    checksum := List.replicate 32 0
    message_type := command.toNat % 2 ^ 32
    flags := effective_flags
    request_id := request_id
    payload_length := payload_length }

/-- `PacketHeader::set_checksum`. -/
def set_checksum (h : PacketHeader) (checksum : List Nat) : PacketHeader :=
  { h with checksum := checksum }

/-- `PacketHeader::message_type()` — reads bit 63 of the flags. -/
def messageType (h : PacketHeader) : MessageType :=
  if h.flags &&& (1 <<< 63) ≠ 0 then MessageType.Response else MessageType.Command

/-- `PacketHeader::flags()` — the observable flags: bit 63 is cleared,
then `ProtocolFlags::from` truncates unknown bits. The result is the raw
bit pattern of the returned `ProtocolFlags`. -/
def flagsObservable (h : PacketHeader) : Nat :=
  ProtocolFlags.from_bits_truncate (h.flags &&& (2 ^ 63 - 1))

/-- `PacketHeader::to_bytes` — 64 bytes, fields at fixed offsets,
little-endian. -/
def to_bytes (h : PacketHeader) : List Nat :=
  h.magic ++ h.checksum ++ toLeBytes 4 h.message_type ++ toLeBytes 8 h.flags
    ++ toLeBytes 8 h.request_id ++ toLeBytes 8 h.payload_length

/-- `PacketHeader::from_bytes`. -/
def from_bytes (bytes : List Nat) : Except TixError PacketHeader :=
  if bytes.length < HEADER_SIZE then
    .error (.InvalidHeader "buffer too short for header")
  else
    let magic := bytes.take 4
    if magic ≠ MAGIC0 ∧ magic ≠ MAGIC then .error .InvalidMagic
    else
      let checksum := (bytes.drop 4).take 32
      let message_type := fromLeBytes ((bytes.drop 36).take 4)
      let flags := fromLeBytes ((bytes.drop 40).take 8)
      let request_id := fromLeBytes ((bytes.drop 48).take 8)
      let payload_length := fromLeBytes ((bytes.drop 56).take 8)
      .ok { magic := magic, checksum := checksum, message_type := message_type,
            flags := flags, request_id := request_id,
            payload_length := payload_length }

/-- Well-formedness of a reachable `PacketHeader` value: the field widths
of the Rust struct (`u32` / `u64` / `[u8;4]` / `[u8;32]`), bytes below
256, and a magic that every constructor or successful decode establishes. -/
def wf (h : PacketHeader) : Prop :=
  (h.magic = MAGIC0 ∨ h.magic = MAGIC) ∧
  h.checksum.length = 32 ∧ (∀ b ∈ h.checksum, b < 256) ∧
  h.message_type < 2 ^ 32 ∧ h.flags < 2 ^ 64 ∧
  h.request_id < 2 ^ 64 ∧ h.payload_length < 2 ^ 64

instance (h : PacketHeader) : Decidable h.wf := by
  unfold wf; infer_instance

end PacketHeader

-- ── Packet (src/tix-core/src/packet.rs) ──────────────────────────

/-- `MAX_PAYLOAD_SIZE` — 256 KiB. -/
def MAX_PAYLOAD_SIZE : Nat := 256 * 1024

/-- `MAX_FRAME_SIZE` — header + payload. -/
def MAX_FRAME_SIZE : Nat := HEADER_SIZE + MAX_PAYLOAD_SIZE

/-- `Packet` — a fully assembled TIX packet. -/
structure Packet where
  header : PacketHeader
  payload : List Nat
  deriving DecidableEq, Repr

namespace Packet

/-- `Packet::build` — internal builder. `hash` is the external Blake3
collaborator (`blake3::hash`, 32 output bytes). -/
def build (hash : List Nat → List Nat) (msg_type : MessageType)
    (request_id : Nat) (command : Command) (payload : List Nat)
    (flags : Nat) : Except TixError Packet :=
  if payload.length > MAX_PAYLOAD_SIZE then
    .error (.PayloadTooLarge payload.length MAX_PAYLOAD_SIZE)
  else
    let header := PacketHeader.new msg_type command flags request_id payload.length
    let header := if payload ≠ [] then header.set_checksum (hash payload) else header
    .ok { header := header, payload := payload }

/-- `Packet::new_command`. -/
def new_command (hash : List Nat → List Nat) (request_id : Nat)
    (command : Command) (payload : List Nat) : Except TixError Packet :=
  build hash MessageType.Command request_id command payload 0

/-- `Packet::new_command_with_flags`. -/
def new_command_with_flags (hash : List Nat → List Nat) (request_id : Nat)
    (command : Command) (payload : List Nat) (flags : Nat) :
    Except TixError Packet :=
  build hash MessageType.Command request_id command payload flags

/-- `Packet::message_type()`. -/
def messageType (p : Packet) : MessageType :=
  p.header.messageType

/-- `Packet::flags()`. -/
def flagsObservable (p : Packet) : Nat :=
  p.header.flagsObservable

/-- `Packet::to_bytes`. -/
def to_bytes (p : Packet) : Except TixError (List Nat) :=
  if p.payload.length > MAX_PAYLOAD_SIZE then
    .error (.PayloadTooLarge p.payload.length MAX_PAYLOAD_SIZE)
  else
    .ok (p.header.to_bytes ++ p.payload)

/-- `Packet::from_bytes` (the `?` on the header parse is modelled by the
`match` on its result). -/
def from_bytes (bytes : List Nat) : Except TixError Packet :=
  if bytes.length < HEADER_SIZE then
    .error (.InvalidPacketLength HEADER_SIZE bytes.length)
  else
    match PacketHeader.from_bytes (bytes.take HEADER_SIZE) with
    | .error e => .error e
    | .ok header =>
      let expected_total := HEADER_SIZE + header.payload_length
      if bytes.length ≠ expected_total then
        .error (.InvalidPacketLength expected_total bytes.length)
      else if header.payload_length > MAX_PAYLOAD_SIZE then
        .error (.PayloadTooLarge header.payload_length MAX_PAYLOAD_SIZE)
      else
        .ok { header := header, payload := bytes.drop HEADER_SIZE }

/-- `Packet::validate_checksum` (with the Blake3 hash as parameter). -/
def validate_checksum (hash : List Nat → List Nat) (p : Packet) : Bool :=
  if p.payload = [] then true
  else hash p.payload = p.header.checksum

end Packet

-- ── Parsing lemmas for the fixed header layout ───────────────────

/-- Field extraction from the concatenated 64-byte header layout. -/
theorem parse_fields (m c t4 f8 r8 p8 : List Nat) (hm : m.length = 4)
    (hc : c.length = 32) (ht : t4.length = 4) (hf : f8.length = 8)
    (hr : r8.length = 8) (hp : p8.length = 8) :
    (m ++ c ++ t4 ++ f8 ++ r8 ++ p8).length = 64 ∧
    (m ++ c ++ t4 ++ f8 ++ r8 ++ p8).take 4 = m ∧
    ((m ++ c ++ t4 ++ f8 ++ r8 ++ p8).drop 4).take 32 = c ∧
    ((m ++ c ++ t4 ++ f8 ++ r8 ++ p8).drop 36).take 4 = t4 ∧
    ((m ++ c ++ t4 ++ f8 ++ r8 ++ p8).drop 40).take 8 = f8 ∧
    ((m ++ c ++ t4 ++ f8 ++ r8 ++ p8).drop 48).take 8 = r8 ∧
    ((m ++ c ++ t4 ++ f8 ++ r8 ++ p8).drop 56).take 8 = p8 := by
  have d4 : (m ++ c ++ t4 ++ f8 ++ r8 ++ p8).drop 4
      = c ++ (t4 ++ (f8 ++ (r8 ++ p8))) := by
    simp only [List.append_assoc]
    exact drop_app _ _ 4 hm
  have d36 : (m ++ c ++ t4 ++ f8 ++ r8 ++ p8).drop 36
      = t4 ++ (f8 ++ (r8 ++ p8)) := by
    rw [show (36 : Nat) = 4 + 32 from rfl, ← List.drop_drop, d4]
    exact drop_app _ _ 32 hc
  have d40 : (m ++ c ++ t4 ++ f8 ++ r8 ++ p8).drop 40
      = f8 ++ (r8 ++ p8) := by
    rw [show (40 : Nat) = 36 + 4 from rfl, ← List.drop_drop, d36]
    exact drop_app _ _ 4 ht
  have d48 : (m ++ c ++ t4 ++ f8 ++ r8 ++ p8).drop 48 = r8 ++ p8 := by
    rw [show (48 : Nat) = 40 + 8 from rfl, ← List.drop_drop, d40]
    exact drop_app _ _ 8 hf
  have d56 : (m ++ c ++ t4 ++ f8 ++ r8 ++ p8).drop 56 = p8 := by
    rw [show (56 : Nat) = 48 + 8 from rfl, ← List.drop_drop, d48]
    exact drop_app _ _ 8 hr
  refine ⟨by simp [hm, hc, ht, hf, hr, hp], ?_, ?_, ?_, ?_, ?_, ?_⟩
  · simp only [List.append_assoc]
    exact take_app _ _ 4 hm
  · rw [d4]; exact take_app _ _ 32 hc
  · rw [d36]; exact take_app _ _ 4 ht
  · rw [d40]; exact take_app _ _ 8 hf
  · rw [d48]; exact take_app _ _ 8 hr
  · rw [d56, List.take_of_length_le (by simp [hp])]

theorem PacketHeader.wf_magic_length {h : PacketHeader} (hwf : h.wf) :
    h.magic.length = 4 := by
  rcases hwf.1 with e | e <;> simp [e, MAGIC0, MAGIC]

theorem PacketHeader.to_bytes_length {h : PacketHeader} (hwf : h.wf) :
    h.to_bytes.length = 64 := by
  simp [PacketHeader.to_bytes, PacketHeader.wf_magic_length hwf,
    hwf.2.1, toLeBytes_length]

/-- Decoding an encoded well-formed header restores it exactly. -/
theorem PacketHeader.from_bytes_to_bytes (h : PacketHeader) (hwf : h.wf) :
    PacketHeader.from_bytes h.to_bytes = .ok h := by
  obtain ⟨hm, hc, _, hmt, hf, hr, hp⟩ := hwf
  have hml : h.magic.length = 4 := PacketHeader.wf_magic_length ⟨hm, hc, ‹_›, hmt, hf, hr, hp⟩
  obtain ⟨len, e0, e1, e2, e3, e4, e5⟩ :=
    parse_fields h.magic h.checksum (toLeBytes 4 h.message_type)
      (toLeBytes 8 h.flags) (toLeBytes 8 h.request_id)
      (toLeBytes 8 h.payload_length) hml hc (toLeBytes_length 4 _)
      (toLeBytes_length 8 _) (toLeBytes_length 8 _) (toLeBytes_length 8 _)
  have hb : h.to_bytes = h.magic ++ h.checksum ++ toLeBytes 4 h.message_type
      ++ toLeBytes 8 h.flags ++ toLeBytes 8 h.request_id
      ++ toLeBytes 8 h.payload_length := rfl
  rw [PacketHeader.from_bytes, hb, len]
  rw [if_neg (by simp [HEADER_SIZE])]
  rw [e0, e1, e2, e3, e4, e5]
  rw [if_neg (by rcases hm with e | e <;> simp [e])]
  rw [fromLeBytes_toLeBytes, fromLeBytes_toLeBytes, fromLeBytes_toLeBytes,
    fromLeBytes_toLeBytes]
  rw [Nat.mod_eq_of_lt (by exact lt_of_lt_of_le hmt (by norm_num)),
    Nat.mod_eq_of_lt (by exact lt_of_lt_of_le hf (by norm_num)),
    Nat.mod_eq_of_lt (by exact lt_of_lt_of_le hr (by norm_num)),
    Nat.mod_eq_of_lt (by exact lt_of_lt_of_le hp (by norm_num))]

/-- C1 — For every well-formed packet `p` (payload at most 256 KiB,
declared `payload_length` equal to the payload buffer length, header
fields within their Rust type ranges and a valid magic — an invariant of
every reachable `Packet`), `Packet::to_bytes` succeeds and
`Packet::from_bytes` on its output returns `p` field by field; in
particular the 32-byte checksum field is preserved bit-exactly. -/
theorem C1_packet_roundtrip (p : Packet) (hwf : p.header.wf)
    (hlen : p.payload.length ≤ MAX_PAYLOAD_SIZE)
    (hdecl : p.header.payload_length = p.payload.length) :
    p.to_bytes = .ok (p.header.to_bytes ++ p.payload) ∧
    Packet.from_bytes (p.header.to_bytes ++ p.payload) = .ok p ∧
    ∀ q : Packet, Packet.from_bytes (p.header.to_bytes ++ p.payload) = .ok q →
      q.header.checksum = p.header.checksum := by
  have hhl : p.header.to_bytes.length = 64 := PacketHeader.to_bytes_length hwf
  have hfrom : Packet.from_bytes (p.header.to_bytes ++ p.payload) = .ok p := by
    rw [Packet.from_bytes]
    rw [if_neg (by simp [HEADER_SIZE, hhl])]
    rw [take_app _ _ HEADER_SIZE hhl]
    rw [PacketHeader.from_bytes_to_bytes p.header hwf]
    show (if _ ≠ _ then _ else if _ > _ then _ else _) = _
    rw [if_neg (by simp [HEADER_SIZE, hhl, hdecl])]
    rw [if_neg (by simp only [hdecl, gt_iff_lt, not_lt]; exact hlen)]
    rw [drop_app _ _ HEADER_SIZE hhl]
  refine ⟨?_, hfrom, ?_⟩
  · rw [Packet.to_bytes, if_neg (by omega)]
  · intro q hq
    rw [hfrom] at hq
    cases hq
    rfl

/-- A concrete packet used to witness `C1_packet_roundtrip`. -/
def w1packet : Packet :=
  { header := { magic := MAGIC, checksum := List.replicate 32 7,
                message_type := 0x0101, flags := 3, request_id := 5,
                payload_length := 2 }
    payload := [10, 20] }

/-- Witness for C1 at a concrete packet. -/
theorem C1_packet_roundtrip_witness :
    w1packet.header.wf ∧ w1packet.payload.length ≤ MAX_PAYLOAD_SIZE ∧
    w1packet.header.payload_length = w1packet.payload.length ∧
    w1packet.to_bytes = .ok (w1packet.header.to_bytes ++ w1packet.payload) ∧
    Packet.from_bytes (w1packet.header.to_bytes ++ w1packet.payload)
      = .ok w1packet := by
  have h := C1_packet_roundtrip w1packet (by decide) (by decide) (by decide)
  exact ⟨by decide, by decide, by decide, h.1, h.2.1⟩

-- ── Codec (src/tix-core/src/codec/mod.rs) ────────────────────────

/-- `TixCodec::decode`. The `&mut BytesMut` buffer is modelled by
returning the remaining buffer next to the optional decoded packet; the
`?` operators are the `match`es on intermediate results. `hash` is the
Blake3 collaborator used by checksum validation. -/
def TixCodec.decode (hash : List Nat → List Nat) (src : List Nat) :
    Except TixError (Option Packet × List Nat) :=
  if src.length > MAX_FRAME_SIZE then
    .error (.FrameTooLarge src.length MAX_FRAME_SIZE)
  else if src.length < HEADER_SIZE then
    .ok (none, src)
  else
    match PacketHeader.from_bytes (src.take HEADER_SIZE) with
    | .error e => .error e
    | .ok header =>
      let payload_len := header.payload_length
      if payload_len > MAX_PAYLOAD_SIZE then
        .error (.PayloadTooLarge payload_len MAX_PAYLOAD_SIZE)
      else if payload_len > 0 ∧ header.checksum = List.replicate 32 0 then
        .error (.ProtocolViolation "non-empty payload with zero checksum")
      else
        let total := HEADER_SIZE + payload_len
        if src.length < total then
          .ok (none, src)
        else
          match Packet.from_bytes (src.take total) with
          | .error e => .error e
          | .ok packet =>
            if ¬ Packet.validate_checksum hash packet then
              .error .ChecksumMismatch
            else
              .ok (some packet, src.drop total)

/-- A concrete stand-in value for the external Blake3 collaborator, used
only to instantiate witnesses (the theorems quantify over the hash). -/
def hashOnes : List Nat → List Nat := fun _ => List.replicate 32 1

/-- Common reduction of `TixCodec::decode` on a buffer holding exactly
one full frame with in-range declared length, parseable header and a
non-zero stored checksum: decoding reaches checksum validation. -/
theorem TixCodec.decode_full_frame (hash : List Nat → List Nat)
    (src : List Nat) (h : PacketHeader)
    (hparse : PacketHeader.from_bytes (src.take HEADER_SIZE) = .ok h)
    (hlen : src.length = HEADER_SIZE + h.payload_length)
    (hpos : 0 < h.payload_length)
    (hmax : h.payload_length ≤ MAX_PAYLOAD_SIZE)
    (hnz : h.checksum ≠ List.replicate 32 0) :
    TixCodec.decode hash src =
      if hash (src.drop HEADER_SIZE) = h.checksum then
        .ok (some { header := h, payload := src.drop HEADER_SIZE }, [])
      else .error .ChecksumMismatch := by
  have hmax' : h.payload_length ≤ 262144 := by
    simpa [MAX_PAYLOAD_SIZE] using hmax
  have hlen' : src.length = 64 + h.payload_length := by
    simpa [HEADER_SIZE] using hlen
  have hdropne : src.drop HEADER_SIZE ≠ [] := by
    intro e
    have : (src.drop HEADER_SIZE).length = 0 := by rw [e]; rfl
    rw [List.length_drop] at this
    simp only [HEADER_SIZE] at this
    omega
  have hpkt : Packet.from_bytes src
      = .ok { header := h, payload := src.drop HEADER_SIZE } := by
    rw [Packet.from_bytes, if_neg (by simp only [HEADER_SIZE]; omega), hparse]
    dsimp only
    rw [if_neg (by simp only [HEADER_SIZE]; omega),
      if_neg (by simp only [gt_iff_lt, not_lt]; exact hmax)]
  rw [TixCodec.decode]
  rw [if_neg (by simp only [gt_iff_lt, not_lt, MAX_FRAME_SIZE, HEADER_SIZE,
    MAX_PAYLOAD_SIZE]; omega)]
  rw [if_neg (by simp only [not_lt, HEADER_SIZE]; omega), hparse]
  dsimp only
  rw [if_neg (by simp only [gt_iff_lt, not_lt]; exact hmax)]
  rw [if_neg (by intro hcc; exact hnz hcc.2)]
  rw [if_neg (by omega), ← hlen, List.take_length, hpkt]
  dsimp only
  rw [List.drop_length]
  by_cases hcs : hash (src.drop HEADER_SIZE) = h.checksum
  · rw [if_pos hcs]
    rw [if_neg (by simp [Packet.validate_checksum, hdropne, hcs])]
  · rw [if_neg hcs]
    rw [if_pos (by simp [Packet.validate_checksum, hdropne, hcs])]

/-- C2 — On a buffer holding exactly one full frame
(`len = 64 + payload_length`, `payload_length > 0`) whose header parses,
whose declared length is within the 256 KiB cap and whose stored
checksum is not all-zero (a non-empty payload with all-zero checksum is
rejected earlier as `ProtocolViolation`, spec §4.2 step 3, before any
hash is computed), the codec recomputes the hash of the payload and
compares it with the stored checksum: a mismatch yields
`ChecksumMismatch`, an error distinct from every malformed-framing
error, and a match yields the packet. -/
theorem C2_checksum_mismatch (hash : List Nat → List Nat)
    (src : List Nat) (h : PacketHeader)
    (hparse : PacketHeader.from_bytes (src.take HEADER_SIZE) = .ok h)
    (hlen : src.length = HEADER_SIZE + h.payload_length)
    (hpos : 0 < h.payload_length)
    (hmax : h.payload_length ≤ MAX_PAYLOAD_SIZE)
    (hnz : h.checksum ≠ List.replicate 32 0) :
    (hash (src.drop HEADER_SIZE) ≠ h.checksum →
      TixCodec.decode hash src = .error .ChecksumMismatch) ∧
    (hash (src.drop HEADER_SIZE) = h.checksum →
      TixCodec.decode hash src
        = .ok (some { header := h, payload := src.drop HEADER_SIZE }, [])) ∧
    (TixError.ChecksumMismatch ≠ .InvalidMagic) ∧
    (∀ s, TixError.ChecksumMismatch ≠ .InvalidHeader s) ∧
    (∀ a b, TixError.ChecksumMismatch ≠ .InvalidPacketLength a b) ∧
    (∀ a b, TixError.ChecksumMismatch ≠ .FrameTooLarge a b) := by
  have key := TixCodec.decode_full_frame hash src h hparse hlen hpos hmax hnz
  refine ⟨?_, ?_, fun e => TixError.noConfusion e,
    fun s e => TixError.noConfusion e, fun a b e => TixError.noConfusion e,
    fun a b e => TixError.noConfusion e⟩
  · intro hmis
    rw [key, if_neg hmis]
  · intro hcs
    rw [key, if_pos hcs]

/-- Header of the concrete frame used to witness C2: one payload byte,
stored checksum 32 bytes of 2. -/
def w2header : PacketHeader :=
  { magic := MAGIC, checksum := List.replicate 32 2, message_type := 0x0001,
    flags := 0, request_id := 1, payload_length := 1 }

/-- Concrete buffer for the C2 witness. -/
def w2src : List Nat := w2header.to_bytes ++ [9]

/-- Witness for C2: with the stand-in hash (all ones ≠ stored all twos)
the concrete full frame decodes to `ChecksumMismatch`. -/
theorem C2_checksum_mismatch_witness :
    PacketHeader.from_bytes (w2src.take HEADER_SIZE) = .ok w2header ∧
    w2src.length = HEADER_SIZE + w2header.payload_length ∧
    hashOnes (w2src.drop HEADER_SIZE) ≠ w2header.checksum ∧
    TixCodec.decode hashOnes w2src = .error .ChecksumMismatch := by
  have h := C2_checksum_mismatch hashOnes w2src w2header (by decide) (by decide)
    (by decide) (by decide) (by decide)
  exact ⟨by decide, by decide, by decide, h.1 (by decide)⟩

/-- C3 (amended) — If the buffered bytes do not exceed `MAX_FRAME_SIZE`
and the decoded header declares a payload length above 256 KiB, decode
fails with `PayloadTooLarge`, however few bytes of the frame are
buffered. (The original claim's "no matter how many bytes are present"
fails: once the buffer itself exceeds `MAX_FRAME_SIZE`, the guard at the
top of `TixCodec::decode` fires first and the error is `FrameTooLarge`,
see `C3_payload_too_large_counterexample`.) -/
theorem C3_payload_too_large (hash : List Nat → List Nat)
    (src : List Nat) (h : PacketHeader)
    (hparse : PacketHeader.from_bytes (src.take HEADER_SIZE) = .ok h)
    (hle : src.length ≤ MAX_FRAME_SIZE)
    (hbig : h.payload_length > MAX_PAYLOAD_SIZE) :
    TixCodec.decode hash src
      = .error (.PayloadTooLarge h.payload_length MAX_PAYLOAD_SIZE) := by
  have hge : HEADER_SIZE ≤ src.length := by
    by_contra hlt
    push_neg at hlt
    rw [PacketHeader.from_bytes, if_pos (by
      simp only [List.length_take, HEADER_SIZE] at hlt ⊢; omega)] at hparse
    exact Except.noConfusion hparse
  rw [TixCodec.decode,
    if_neg (by simp only [gt_iff_lt, not_lt]; exact hle),
    if_neg (by simp only [not_lt]; exact hge), hparse]
  dsimp only
  rw [if_pos hbig]

/-- The header of the C3 counterexample: declares a 262145-byte payload
(one over the 256 KiB cap). -/
def c3header : PacketHeader :=
  { magic := MAGIC, checksum := List.replicate 32 0, message_type := 0x0001,
    flags := 0, request_id := 0, payload_length := 262145 }

/-- The C3 counterexample buffer: the complete declared frame
(64 + 262145 = 262209 bytes) is present. -/
def c3buf : List Nat := c3header.to_bytes ++ List.replicate 262145 0

/-- C3 counterexample — with the whole oversized frame buffered, the
header declares a payload length above 256 KiB, yet decode fails with
`FrameTooLarge`, not `PayloadTooLarge`: the claim's "regardless of
buffered bytes" is false. -/
theorem C3_payload_too_large_counterexample :
    PacketHeader.from_bytes (c3buf.take HEADER_SIZE) = .ok c3header ∧
    c3header.payload_length > MAX_PAYLOAD_SIZE ∧
    TixCodec.decode hashOnes c3buf
      = .error (.FrameTooLarge 262209 MAX_FRAME_SIZE) := by
  have hwf : c3header.wf := by decide
  have hhl : c3header.to_bytes.length = 64 := PacketHeader.to_bytes_length hwf
  have hlen : c3buf.length = 262209 := by
    rw [c3buf, List.length_append, hhl, List.length_replicate]
  refine ⟨?_, by decide, ?_⟩
  · rw [c3buf, take_app _ _ HEADER_SIZE hhl]
    exact PacketHeader.from_bytes_to_bytes c3header hwf
  · rw [TixCodec.decode, hlen,
      if_pos (by simp only [MAX_FRAME_SIZE, HEADER_SIZE, MAX_PAYLOAD_SIZE]; omega)]

/-- Witness for the amended C3 at a concrete input: only the 64 header
bytes of an oversized frame are buffered, and decode already fails with
`PayloadTooLarge`. -/
theorem C3_payload_too_large_witness :
    PacketHeader.from_bytes ((c3header.to_bytes).take HEADER_SIZE)
      = .ok c3header ∧
    c3header.to_bytes.length ≤ MAX_FRAME_SIZE ∧
    c3header.payload_length > MAX_PAYLOAD_SIZE ∧
    TixCodec.decode hashOnes c3header.to_bytes
      = .error (.PayloadTooLarge 262145 MAX_PAYLOAD_SIZE) :=
  ⟨by decide, by decide, by decide,
    C3_payload_too_large hashOnes c3header.to_bytes c3header (by decide)
      (by decide) (by decide)⟩

/-- C5 — The codec emits at most one packet per call (its result type
carries at most one), and it consumes only whole frames: on "need more"
(`Ok(None)`) the buffer is returned untouched, and on a decoded packet
the remaining buffer is a suffix of the input, so the buffered prefix of
a subsequent frame is never split or corrupted. -/
theorem C5_decode_preserves_buffer (hash : List Nat → List Nat)
    (src : List Nat) (out : Option Packet) (rest : List Nat)
    (hdec : TixCodec.decode hash src = .ok (out, rest)) :
    (out = none → rest = src) ∧ (∃ consumed, src = consumed ++ rest) := by
  rw [TixCodec.decode] at hdec
  split at hdec
  · exact absurd hdec (fun c => Except.noConfusion c)
  · split at hdec
    · cases hdec
      exact ⟨fun _ => rfl, [], rfl⟩
    · split at hdec
      · exact absurd hdec (fun c => Except.noConfusion c)
      · dsimp only at hdec
        split at hdec
        · exact absurd hdec (fun c => Except.noConfusion c)
        · split at hdec
          · exact absurd hdec (fun c => Except.noConfusion c)
          · split at hdec
            · cases hdec
              exact ⟨fun _ => rfl, [], rfl⟩
            · split at hdec
              · exact absurd hdec (fun c => Except.noConfusion c)
              · split at hdec
                · exact absurd hdec (fun c => Except.noConfusion c)
                · cases hdec
                  exact ⟨fun c => Option.noConfusion c, _,
                    (List.take_append_drop _ src).symm⟩

/-- Witness for C5: an empty buffer is "need more" and comes back
unchanged. -/
theorem C5_decode_preserves_buffer_witness :
    TixCodec.decode hashOnes [] = .ok (none, ([] : List Nat)) ∧
    ([] : List Nat) = [] :=
  ⟨by decide,
    (C5_decode_preserves_buffer hashOnes [] none [] (by decide)).1 rfl⟩

-- ── Connection phase (src/tix-core/src/state/connection.rs) ──────

/-- `ConnectionPhase` — lifecycle of a TIX peer connection. `Connected`
carries the `since: Instant` timestamp (opaque `Nat`). -/
inductive ConnectionPhase where
  | Disconnected : ConnectionPhase
  | Connecting : ConnectionPhase
  | Handshaking : ConnectionPhase
  | Connected : Nat → ConnectionPhase
  | Disconnecting : ConnectionPhase
  deriving DecidableEq, Repr

namespace ConnectionPhase

/-- `ConnectionPhase::begin_connect` (valid from `Disconnected`).
The pair is (returned `Result`, state of `self` after the call). -/
def begin_connect : ConnectionPhase → Except TixError Unit × ConnectionPhase
  | .Disconnected => (.ok (), .Connecting)
  | other => (.error (.ProtocolViolation "cannot connect: not in Disconnected state"), other)

/-- `ConnectionPhase::begin_handshake` (valid from `Connecting`). -/
def begin_handshake : ConnectionPhase → Except TixError Unit × ConnectionPhase
  | .Connecting => (.ok (), .Handshaking)
  | other => (.error (.ProtocolViolation "cannot handshake: not in Connecting state"), other)

/-- `ConnectionPhase::complete_handshake` (valid from `Handshaking`);
`now` is `Instant::now()`. -/
def complete_handshake (now : Nat) :
    ConnectionPhase → Except TixError Unit × ConnectionPhase
  | .Handshaking => (.ok (), .Connected now)
  | other => (.error (.ProtocolViolation "cannot complete handshake: not in Handshaking state"), other)

/-- `ConnectionPhase::begin_disconnect` (valid from `Handshaking` and
`Connected`). -/
def begin_disconnect : ConnectionPhase → Except TixError Unit × ConnectionPhase
  | .Handshaking => (.ok (), .Disconnecting)
  | .Connected _ => (.ok (), .Disconnecting)
  | other => (.error (.ProtocolViolation "cannot disconnect: not in Handshaking or Connected state"), other)

/-- `ConnectionPhase::finish_disconnect` (valid from `Disconnecting`,
`Connecting`, `Handshaking`). -/
def finish_disconnect : ConnectionPhase → Except TixError Unit × ConnectionPhase
  | .Disconnecting => (.ok (), .Disconnected)
  | .Connecting => (.ok (), .Disconnected)
  | .Handshaking => (.ok (), .Disconnected)
  | other => (.error (.ProtocolViolation "cannot finish disconnect: not in a disconnectable state"), other)

/-- `ConnectionPhase::force_disconnect` — unconditional reset. -/
def force_disconnect : ConnectionPhase → ConnectionPhase :=
  fun _ => .Disconnected

end ConnectionPhase

/-- The five validated transition operations of `ConnectionPhase`. -/
inductive PhaseOp where
  | beginConnect | beginHandshake | completeHandshake
  | beginDisconnect | finishDisconnect
  deriving DecidableEq, Repr

/-- Dispatch a `PhaseOp` to the corresponding source transition. -/
def phaseStep (op : PhaseOp) (now : Nat) (s : ConnectionPhase) :
    Except TixError Unit × ConnectionPhase :=
  match op with
  | .beginConnect => s.begin_connect
  | .beginHandshake => s.begin_handshake
  | .completeHandshake => s.complete_handshake now
  | .beginDisconnect => s.begin_disconnect
  | .finishDisconnect => s.finish_disconnect

/-- `ConnectionPhase` with the `since` payload of `Connected` erased,
for comparison against the spec's edge list. -/
inductive PhaseTag where
  | Disconnected | Connecting | Handshaking | Connected | Disconnecting
  deriving DecidableEq, Repr

/-- Tag of a phase value. -/
def ConnectionPhase.tag : ConnectionPhase → PhaseTag
  | .Disconnected => .Disconnected
  | .Connecting => .Connecting
  | .Handshaking => .Handshaking
  | .Connected _ => .Connected
  | .Disconnecting => .Disconnecting

/-- The edge list stated by the claim (spec §4.4), written from the
spec's words for comparison with the source transitions: target tag of
each allowed edge, `none` when the edge is disallowed. -/
def specEdgeTarget : PhaseOp → PhaseTag → Option PhaseTag
  | .beginConnect, .Disconnected => some .Connecting
  | .beginHandshake, .Connecting => some .Handshaking
  | .completeHandshake, .Handshaking => some .Connected
  | .beginDisconnect, .Handshaking => some .Disconnecting
  | .beginDisconnect, .Connected => some .Disconnecting
  | .finishDisconnect, .Disconnecting => some .Disconnected
  | .finishDisconnect, .Connecting => some .Disconnected
  | .finishDisconnect, .Handshaking => some .Disconnected
  | _, _ => none

/-- C4 — The five transition operations realise exactly the spec's
edges: on an allowed edge they return `Ok` and move to the listed target
phase; on every other edge they return `ProtocolViolation` and leave the
phase value unchanged. -/
theorem C4_phase_transitions (op : PhaseOp) (now : Nat) (s : ConnectionPhase) :
    match specEdgeTarget op s.tag with
    | some t => ∃ s', phaseStep op now s = (.ok (), s') ∧ s'.tag = t
    | none => ∃ msg, phaseStep op now s = (.error (.ProtocolViolation msg), s) := by
  cases op <;> cases s <;>
    first
      | exact ⟨_, rfl, rfl⟩
      | exact ⟨_, rfl⟩

-- ── Adaptive encoder state (src/tix-core/src/rdp/encoder.rs) ─────

/-- `AdaptiveEncoder` — quality / compression-level state.
`compression_level` is the Rust `i32`, `quality` the `u8` slider. -/
structure AdaptiveEncoder where
  compression_level : Int
  quality : Nat
  target_bandwidth : Nat
  measured_bandwidth : Nat
  frame_count : Nat
  deriving DecidableEq, Repr

namespace AdaptiveEncoder

/-- `AdaptiveEncoder::new` — level 1 (favour speed), quality 90. -/
def new (target_bandwidth : Nat) : AdaptiveEncoder :=
  { compression_level := 1
    quality := 90
    target_bandwidth := target_bandwidth
    measured_bandwidth := target_bandwidth
    frame_count := 0 }

/-- `AdaptiveEncoder::adjust_quality`. `quality.saturating_sub 5` is
`Nat` subtraction; the `u8` addition `quality + 5` wraps at 256; the
`u64` product `target_bandwidth * 8` wraps at `2^64`. -/
def adjust_quality (e : AdaptiveEncoder) (measured_bandwidth : Nat) :
    AdaptiveEncoder :=
  let e := { e with measured_bandwidth := measured_bandwidth }
  if measured_bandwidth > e.target_bandwidth then
    { e with quality := e.quality - 5
             compression_level := min (e.compression_level + 1) 9 }
  else if measured_bandwidth < e.target_bandwidth * 8 % 2 ^ 64 / 10 then
    { e with quality := min ((e.quality + 5) % 256) 100
             compression_level := max (e.compression_level - 1) 1 }
  else e

end AdaptiveEncoder

/-- C8 — `adjust_quality` behaviour: above target, quality drops by 5
(floored at 0 by the saturating subtraction) and the level rises by 1
capped at 9; below the 80% threshold (the code's integer
`target * 8 / 10`), quality rises by 5 capped at 100 and the level
drops by 1 floored at 1; otherwise both are unchanged. A fresh encoder
has compression level 1. The `quality ≤ 100` hypothesis is the
invariant every reachable encoder satisfies (constructed at 90, both
updates stay within 0..100); `target * 8 < 2^64` keeps the `u64`
product from wrapping. -/
theorem C8_adjust_quality (e : AdaptiveEncoder) (m : Nat)
    (hq : e.quality ≤ 100) (hof : e.target_bandwidth * 8 < 2 ^ 64) :
    (∀ t, (AdaptiveEncoder.new t).compression_level = 1) ∧
    (m > e.target_bandwidth →
      (e.adjust_quality m).quality = e.quality - 5 ∧
      (e.adjust_quality m).compression_level = min (e.compression_level + 1) 9) ∧
    (¬ m > e.target_bandwidth → m < e.target_bandwidth * 8 / 10 →
      (e.adjust_quality m).quality = min (e.quality + 5) 100 ∧
      (e.adjust_quality m).compression_level = max (e.compression_level - 1) 1) ∧
    (¬ m > e.target_bandwidth → ¬ m < e.target_bandwidth * 8 / 10 →
      (e.adjust_quality m).quality = e.quality ∧
      (e.adjust_quality m).compression_level = e.compression_level) := by
  have hwrap : e.target_bandwidth * 8 % 2 ^ 64 = e.target_bandwidth * 8 :=
    Nat.mod_eq_of_lt hof
  have hq5 : (e.quality + 5) % 256 = e.quality + 5 :=
    Nat.mod_eq_of_lt (by omega)
  refine ⟨fun t => rfl, ?_, ?_, ?_⟩
  · intro hgt
    rw [AdaptiveEncoder.adjust_quality]
    dsimp only
    rw [if_pos hgt]
    exact ⟨rfl, rfl⟩
  · intro hle hlt
    rw [AdaptiveEncoder.adjust_quality]
    dsimp only
    rw [if_neg hle, if_pos (by rw [hwrap]; exact hlt), hq5]
    exact ⟨rfl, rfl⟩
  · intro hle hge
    rw [AdaptiveEncoder.adjust_quality]
    dsimp only
    rw [if_neg hle, if_neg (by rw [hwrap]; exact hge)]
    exact ⟨rfl, rfl⟩

/-- Witness for C8 at a concrete encoder: target 1000, measured 2000 is
over budget, so quality 90 → 85 and level 1 → 2. -/
theorem C8_adjust_quality_witness :
    (AdaptiveEncoder.new 1000).quality ≤ 100 ∧
    (AdaptiveEncoder.new 1000).target_bandwidth * 8 < 2 ^ 64 ∧
    ((AdaptiveEncoder.new 1000).adjust_quality 2000).quality = 85 ∧
    ((AdaptiveEncoder.new 1000).adjust_quality 2000).compression_level = 2 := by
  have h := (C8_adjust_quality (AdaptiveEncoder.new 1000) 2000 (by decide)
    (by decide)).2.1 (by decide)
  exact ⟨by decide, by decide, by rw [h.1]; decide, by rw [h.2]; decide⟩

-- ── C9: the reserved flag bit 63 ─────────────────────────────────

theorem and_shift63_eq_zero_of_lt_32 (m : Nat) (hm : m < 32) :
    m &&& (1 <<< 63) = 0 := by
  apply Nat.eq_of_testBit_eq
  intro i
  simp only [Nat.testBit_and, Nat.zero_testBit, Bool.and_eq_false_imp]
  intro hmt
  have h63 : (1 <<< 63 : Nat) = 2 ^ 63 := by
    rw [Nat.shiftLeft_eq, Nat.one_mul]
  rcases Nat.lt_or_ge i 5 with hi | hi
  · rw [h63, Nat.testBit_two_pow]
    simp only [decide_eq_false_iff_not]
    omega
  · have h32 : (32 : Nat) ≤ 2 ^ i :=
      calc (32 : Nat) = 2 ^ 5 := by norm_num
        _ ≤ 2 ^ i := Nat.pow_le_pow_right (by norm_num) hi
    exact absurd hmt (by
      rw [Nat.testBit_lt_two_pow (lt_of_lt_of_le hm h32)]
      simp)

/-- C9 (amended) — The observable flags (`PacketHeader::flags()`) never
include bit 63: it is masked on read (and the `from_bits_truncate`
conversion clears it as an unknown bit as well). However the packet
constructors do **not** refuse caller-supplied flags with bit 63 set:
`PacketHeader::new` passes the bits through unmasked for a `Command`,
so building a Command packet whose flags carry bit 63 produces a packet
whose `message_type()` reads back as `Response`, not `Command`. -/
theorem C9_reserved_bit (hash : List Nat → List Nat) (p : Packet)
    (flags request_id : Nat) (cmd : Command) (payload : List Nat)
    (hbit : flags &&& (1 <<< 63) ≠ 0)
    (hlen : payload.length ≤ MAX_PAYLOAD_SIZE) :
    p.flagsObservable &&& (1 <<< 63) = 0 ∧
    (∃ q, Packet.build hash MessageType.Command request_id cmd payload flags
        = .ok q ∧ q.messageType = MessageType.Response) := by
  constructor
  · apply and_shift63_eq_zero_of_lt_32
    have hle : p.flagsObservable ≤ ProtocolFlags.KNOWN_BITS := by
      rw [Packet.flagsObservable, PacketHeader.flagsObservable,
        ProtocolFlags.from_bits_truncate]
      exact Nat.and_le_right
    rw [show ProtocolFlags.KNOWN_BITS = 31 from rfl] at hle
    omega
  · rw [Packet.build, if_neg (by omega)]
    dsimp only
    refine ⟨_, rfl, ?_⟩
    by_cases hp : payload = []
    · simp only [Packet.messageType, PacketHeader.messageType, hp,
        ne_eq, not_true_eq_false, if_false, PacketHeader.new]
      simp only [reduceCtorEq, if_false]
      rw [if_pos hbit]
    · simp only [Packet.messageType, PacketHeader.messageType, hp,
        ne_eq, not_false_eq_true, if_true, PacketHeader.set_checksum,
        PacketHeader.new]
      simp only [reduceCtorEq, if_false]
      rw [if_pos hbit]

/-- The Command packet of the C9 counterexample: caller-supplied flags
with (only) bit 63 set. -/
def c9build : Except TixError Packet :=
  Packet.build hashOnes MessageType.Command 1 Command.Ping [] (1 <<< 63)

/-- The packet value `c9build` produces. -/
def c9packet : Packet :=
  { header := PacketHeader.new MessageType.Command Command.Ping (1 <<< 63) 1 0
    payload := [] }

/-- C9 counterexample — the claim "constructing a Command packet with
caller-supplied flags that have bit 63 set still produces a packet whose
message_type is Command" is false: the built packet reads back as a
Response. -/
theorem C9_reserved_bit_counterexample :
    c9build = .ok c9packet ∧
    c9packet.messageType = MessageType.Response := by
  constructor
  · decide
  · decide

/-- Witness for the amended C9 at concrete inputs. -/
theorem C9_reserved_bit_witness :
    ((1 <<< 63 : Nat) &&& (1 <<< 63) ≠ 0) ∧
    w1packet.flagsObservable &&& (1 <<< 63) = 0 := by
  have h := C9_reserved_bit hashOnes w1packet (1 <<< 63) 1 Command.Ping []
    (by decide) (by decide)
  exact ⟨by decide, h.1⟩

-- ── Bandwidth estimator (src/tix-core/src/rdp/bandwidth.rs) ──────

/-- `BandwidthEstimator` — rolling-window samples `(when, bytes)` with
`when` an opaque `Instant` in nanoseconds, window a `Duration` in
nanoseconds. The deque front is the list head. -/
structure BandwidthEstimator where
  samples : List (Nat × Nat)
  window : Nat
  total_bytes : Nat
  smoothed_rtt_us : Nat
  deriving DecidableEq, Repr

namespace BandwidthEstimator

/-- `BandwidthEstimator::with_window`. -/
def with_window (window : Nat) : BandwidthEstimator :=
  { samples := [], window := window, total_bytes := 0, smoothed_rtt_us := 0 }

/-- `BandwidthEstimator::new` — 1-second window. -/
def new : BandwidthEstimator :=
  with_window 1000000000

/-- The `evict` while-loop on the sample deque (front = head).
`now.duration_since(ts)` is the saturating `now - ts`;
`total.saturating_sub bytes` is `Nat` subtraction. -/
def evictGo (window now : Nat) :
    List (Nat × Nat) → Nat → List (Nat × Nat) × Nat
  | [], total => ([], total)
  | (ts, bytes) :: rest, total =>
    if now - ts > window then evictGo window now rest (total - bytes)
    else ((ts, bytes) :: rest, total)

/-- `BandwidthEstimator::evict`. -/
def evict (est : BandwidthEstimator) (now : Nat) : BandwidthEstimator :=
  let r := evictGo est.window now est.samples est.total_bytes
  { est with samples := r.1, total_bytes := r.2 }

/-- `BandwidthEstimator::record_at`. -/
def record_at (est : BandwidthEstimator) (when bytes : Nat) :
    BandwidthEstimator :=
  evict { est with samples := est.samples ++ [(when, bytes)],
                   total_bytes := est.total_bytes + bytes } when

/-- `BandwidthEstimator::estimate_bps`. The `f64` division
`total_bytes as f64 / elapsed.as_secs_f64()` is modelled by exact
rational arithmetic truncated to an integer:
`total_bytes * 10^9 / elapsed_ns`. `Duration::from_millis(1)` is
`10^6` ns. -/
def estimate_bps (est : BandwidthEstimator) : Nat :=
  if est.samples = [] then 0
  else
    match est.samples.head?, est.samples.getLast? with
    | some first, some last =>
      let d := last.1 - first.1
      let elapsed := if d = 0 then 1000000 else d
      est.total_bytes * 1000000000 / elapsed
    | _, _ => 0

end BandwidthEstimator

/-- C10 — `estimate_bps` is total with its division guarded: it returns
0 when no samples are recorded; when the first and last samples carry
the same timestamp the divisor is floored to 1 ms rather than dividing
by zero, so a single recorded sample of `b` bytes estimates
`1000 * b` bytes per second. -/
theorem C10_estimate_bps_guarded :
    (BandwidthEstimator.new.estimate_bps = 0) ∧
    (∀ est : BandwidthEstimator, ∀ p q ps,
      est.samples = p :: ps → est.samples.getLast? = some q → p.1 = q.1 →
      est.estimate_bps = 1000 * est.total_bytes) ∧
    (∀ t b, ((BandwidthEstimator.new).record_at t b).estimate_bps
      = 1000 * b) := by
  have hdiv : ∀ n : Nat, n * 1000000000 / 1000000 = 1000 * n := by
    intro n
    rw [show (1000000000 : Nat) = 1000 * 1000000 from rfl, ← Nat.mul_assoc,
      Nat.mul_div_cancel _ (by norm_num), Nat.mul_comm]
  refine ⟨rfl, ?_, ?_⟩
  · intro est p q ps hs hl hts
    rw [BandwidthEstimator.estimate_bps, if_neg (by rw [hs]; exact fun c => List.noConfusion c)]
    rw [hs] at hl ⊢
    rw [List.head?_cons, hl]
    dsimp only
    rw [← hts, Nat.sub_self]
    rw [if_pos rfl, hdiv]
  · intro t b
    have hrec : (BandwidthEstimator.new.record_at t b).samples = [(t, b)] ∧
        (BandwidthEstimator.new.record_at t b).total_bytes = b := by
      rw [BandwidthEstimator.record_at]
      dsimp only [BandwidthEstimator.new, BandwidthEstimator.with_window,
        BandwidthEstimator.evict]
      rw [List.nil_append]
      dsimp only [BandwidthEstimator.evictGo]
      rw [Nat.sub_self]
      exact ⟨by simp, by simp⟩
    rw [BandwidthEstimator.estimate_bps,
      if_neg (by rw [hrec.1]; exact fun c => List.noConfusion c)]
    rw [hrec.1, hrec.2]
    rw [show ([(t, b)] : List (Nat × Nat)).head? = some (t, b) from rfl,
      show ([(t, b)] : List (Nat × Nat)).getLast? = some (t, b) from rfl]
    dsimp only
    rw [Nat.sub_self, if_pos rfl, hdiv]

/-- Witness for C10 at a concrete estimator holding one sample. -/
theorem C10_estimate_bps_guarded_witness :
    (BandwidthEstimator.new.record_at 5 7).samples = (5, 7) :: [] ∧
    (BandwidthEstimator.new.record_at 5 7).samples.getLast? = some (5, 7) ∧
    (BandwidthEstimator.new.record_at 5 7).estimate_bps
      = 1000 * (BandwidthEstimator.new.record_at 5 7).total_bytes :=
  ⟨by decide, by decide,
    C10_estimate_bps_guarded.2.1 (BandwidthEstimator.new.record_at 5 7)
      (5, 7) (5, 7) [] (by decide) (by decide) rfl⟩

-- ── RDP types (src/tix-core/src/rdp/types.rs) ────────────────────

/-- `PixelFormat`. -/
inductive PixelFormat where
  | Bgra8 : PixelFormat
  | Rgba8 : PixelFormat
  | Rgb8 : PixelFormat
  deriving DecidableEq, Repr

/-- `PixelFormat::bytes_per_pixel`. -/
def PixelFormat.bytes_per_pixel : PixelFormat → Nat
  | .Bgra8 => 4
  | .Rgba8 => 4
  | .Rgb8 => 3

/-- `RawScreenFrame` — raw captured frame; `data` holds `height` rows of
`stride` bytes. -/
structure RawScreenFrame where
  width : Nat
  height : Nat
  stride : Nat
  format : PixelFormat
  data : List Nat
  timestamp : Nat
  deriving DecidableEq, Repr

-- ── Delta detection (src/tix-core/src/rdp/delta.rs) ──────────────

/-- `Block` — a changed rectangular region, in pixels. -/
structure Block where
  x : Nat
  y : Nat
  width : Nat
  height : Nat
  deriving DecidableEq, Repr

/-- `DeltaFrame` — result of the delta detection pass. -/
structure DeltaFrame where
  frame_number : Nat
  timestamp : Nat
  width : Nat
  height : Nat
  changed_blocks : List Block
  full_frame : Bool
  deriving DecidableEq, Repr

/-- The Rust slice `&data[a..b]`. -/
def slice (data : List Nat) (a b : Nat) : List Nat :=
  (data.drop a).take (b - a)

/-- `DeltaDetector` — stateful block-level change detector. -/
structure DeltaDetector where
  previous_frame : Option RawScreenFrame
  block_size : Nat
  deriving DecidableEq, Repr

namespace DeltaDetector

/-- `DeltaDetector::new` (the Rust `assert!(block_size > 0)` becomes a
hypothesis of the theorems). -/
def new (block_size : Nat) : DeltaDetector :=
  { previous_frame := none, block_size := block_size }

/-- `DeltaDetector::reset`. -/
def reset (d : DeltaDetector) : DeltaDetector :=
  { d with previous_frame := none }

/-- `DeltaDetector::block_differs` — row-by-row byte comparison of one
tile (the `for y in start_y..end_y` loop with early return is `any`). -/
def block_differs (current previous : RawScreenFrame)
    (start_x start_y end_x end_y : Nat) : Bool :=
  let bpp := current.format.bytes_per_pixel
  let stride := current.stride
  (List.range' start_y (end_y - start_y)).any fun y =>
    let row_offset := y * stride
    let left := start_x * bpp
    let right := end_x * bpp
    decide (slice current.data (row_offset + left) (row_offset + right)
      ≠ slice previous.data (row_offset + left) (row_offset + right))

/-- The `changed` list computed by `DeltaDetector::detect_blocks`: the
double loop over tiles collecting those that differ. -/
def changed_tiles (d : DeltaDetector) (current previous : RawScreenFrame) :
    List Block :=
  let w := current.width
  let h := current.height
  let bs := d.block_size
  let blocks_x := (w + bs - 1) / bs
  let blocks_y := (h + bs - 1) / bs
  (List.range blocks_y).flatMap fun byIdx =>
    (List.range blocks_x).filterMap fun bxIdx =>
      let start_x := bxIdx * bs
      let start_y := byIdx * bs
      let end_x := min (start_x + bs) w
      let end_y := min (start_y + bs) h
      if block_differs current previous start_x start_y end_x end_y then
        some { x := start_x, y := start_y,
               width := end_x - start_x, height := end_y - start_y }
      else none

/-- `DeltaDetector::detect_blocks`. The f64 comparison
`changed.len() as f64 / total_blocks as f64 > 0.80` is modelled by the
exact rational comparison `5 * changed.len() > 4 * total_blocks`. -/
def detect_blocks (d : DeltaDetector) (current previous : RawScreenFrame) :
    DeltaFrame :=
  let w := current.width
  let h := current.height
  let bs := d.block_size
  let blocks_x := (w + bs - 1) / bs
  let blocks_y := (h + bs - 1) / bs
  let changed := d.changed_tiles current previous
  let total_blocks := blocks_x * blocks_y
  let full_frame := !changed.isEmpty && decide (5 * changed.length > 4 * total_blocks)
  { frame_number := 0
    timestamp := current.timestamp
    width := current.width
    height := current.height
    changed_blocks :=
      if full_frame then
        [{ x := 0, y := 0, width := current.width, height := current.height }]
      else changed
    full_frame := full_frame }

/-- `DeltaDetector::detect` — the pair is (returned delta, detector
state after the call: previous_frame := current). -/
def detect (d : DeltaDetector) (current : RawScreenFrame) :
    DeltaFrame × DeltaDetector :=
  let whole : Block :=
    { x := 0, y := 0, width := current.width, height := current.height }
  let delta :=
    match d.previous_frame with
    | some prev =>
      if prev.width = current.width ∧ prev.height = current.height then
        d.detect_blocks current prev
      else
        { frame_number := 0, timestamp := current.timestamp,
          width := current.width, height := current.height,
          changed_blocks := [whole], full_frame := true }
    | none =>
      { frame_number := 0, timestamp := current.timestamp,
        width := current.width, height := current.height,
        changed_blocks := [whole], full_frame := true }
  (delta, { d with previous_frame := some current })

end DeltaDetector

-- ── Slice lemmas ─────────────────────────────────────────────────

theorem slice_get? (l : List Nat) (a b i : Nat) :
    (slice l a b).get? i = if i < b - a then l.get? (a + i) else none := by
  rw [slice]
  by_cases hi : i < b - a
  · rw [if_pos hi, List.get?_take hi, List.get?_drop]
  · rw [if_neg hi]
    apply List.get?_eq_none.2
    calc (List.take (b - a) (List.drop a l)).length
        ≤ b - a := by simp [List.length_take]
      _ ≤ i := by omega

theorem slice_eq_of_agree (l1 l2 : List Nat) (a b : Nat)
    (hagree : ∀ j, a ≤ j → j < b → l1.get? j = l2.get? j) :
    slice l1 a b = slice l2 a b := by
  apply List.ext_get?
  intro i
  rw [slice_get?, slice_get?]
  by_cases hi : i < b - a
  · rw [if_pos hi, if_pos hi]
    exact hagree (a + i) (by omega) (by omega)
  · rw [if_neg hi, if_neg hi]

theorem slice_ne_of_disagree (l1 l2 : List Nat) (a b i : Nat)
    (hai : a ≤ i) (hib : i < b)
    (hne : l1.get? i ≠ l2.get? i) :
    slice l1 a b ≠ slice l2 a b := by
  intro e
  apply hne
  have hc := congrArg (fun l => l.get? (i - a)) e
  simp only [slice_get?] at hc
  rw [if_pos (by omega), if_pos (by omega), Nat.add_sub_cancel' hai] at hc
  exact hc

-- ── filterMap / flatMap over index ranges ────────────────────────

theorem filterMap_range_eq_nil {α : Type} (f : Nat → Option α) (n : Nat)
    (h : ∀ b, b < n → f b = none) : (List.range n).filterMap f = [] := by
  rw [List.filterMap_eq_nil]
  intro a ha
  exact h a (List.mem_range.1 ha)

theorem filterMap_range_eq_singleton {α : Type} (f : Nat → Option α) (v : α) :
    ∀ n b0 : Nat, b0 < n → f b0 = some v →
    (∀ b, b < n → b ≠ b0 → f b = none) →
    (List.range n).filterMap f = [v] := by
  intro n
  induction n with
  | zero => intro b0 hb; omega
  | succ n ih =>
    intro b0 hb hf hother
    rw [List.range_succ, List.filterMap_append]
    by_cases hb0 : b0 = n
    · rw [hb0] at hf
      rw [filterMap_range_eq_nil f n (fun b hbn => hother b (by omega) (by omega))]
      simp [List.filterMap_cons, hf]
    · rw [ih b0 (by omega) hf (fun b hb1 hb2 => hother b (by omega) hb2)]
      have hn : f n = none := hother n (by omega) (by omega)
      simp [List.filterMap_cons, hn]

theorem flatMap_range_eq_nil {α : Type} (g : Nat → List α) (n : Nat)
    (h : ∀ b, b < n → g b = []) : (List.range n).flatMap g = [] := by
  induction n with
  | zero => rfl
  | succ n ih =>
    rw [List.range_succ, List.flatMap_append,
      ih (fun b hb => h b (by omega))]
    simp [h n (by omega)]

theorem flatMap_range_eq_singleton {α : Type} (g : Nat → List α) (v : α) :
    ∀ n b0 : Nat, b0 < n → g b0 = [v] →
    (∀ b, b < n → b ≠ b0 → g b = []) →
    (List.range n).flatMap g = [v] := by
  intro n
  induction n with
  | zero => intro b0 hb; omega
  | succ n ih =>
    intro b0 hb hg hother
    rw [List.range_succ, List.flatMap_append]
    by_cases hb0 : b0 = n
    · rw [hb0] at hg
      rw [flatMap_range_eq_nil g n (fun b hbn => hother b (by omega) (by omega))]
      simp [hg]
    · rw [ih b0 (by omega) hg (fun b hb1 hb2 => hother b (by omega) hb2)]
      have hn : g n = [] := hother n (by omega) (by omega)
      simp [hn]

-- ── block_differs on a single changed pixel ──────────────────────

/-- Characterisation of `block_differs` when the two frames differ
exactly inside the byte range of pixel `(px, py)`: a tile differs iff it
contains that pixel. -/
theorem block_differs_single_pixel
    (cur prev : RawScreenFrame) (px py sx sy ex ey : Nat)
    (hpx : px < cur.width) (hpy : py < cur.height)
    (hstride : cur.width * cur.format.bytes_per_pixel ≤ cur.stride)
    (hex : ex ≤ cur.width) (hey : ey ≤ cur.height)
    (hagree : ∀ j,
      (j < py * cur.stride + px * cur.format.bytes_per_pixel ∨
       py * cur.stride + (px + 1) * cur.format.bytes_per_pixel ≤ j) →
      cur.data.get? j = prev.data.get? j)
    (hdiff : ∃ k, k < cur.format.bytes_per_pixel ∧
      cur.data.get? (py * cur.stride + px * cur.format.bytes_per_pixel + k)
        ≠ prev.data.get? (py * cur.stride + px * cur.format.bytes_per_pixel + k)) :
    DeltaDetector.block_differs cur prev sx sy ex ey = true ↔
      (sx ≤ px ∧ px < ex ∧ sy ≤ py ∧ py < ey) := by
  have hpw : (px + 1) * cur.format.bytes_per_pixel
      ≤ cur.width * cur.format.bytes_per_pixel :=
    Nat.mul_le_mul_right _ (by omega)
  have hx1 : px * cur.format.bytes_per_pixel + cur.format.bytes_per_pixel
      = (px + 1) * cur.format.bytes_per_pixel := by
    rw [Nat.succ_mul]
  have hexw : ex * cur.format.bytes_per_pixel
      ≤ cur.width * cur.format.bytes_per_pixel :=
    Nat.mul_le_mul_right _ hex
  rw [DeltaDetector.block_differs]
  dsimp only
  rw [List.any_eq_true]
  constructor
  · rintro ⟨y, hy, hslice⟩
    rw [List.mem_range'_1] at hy
    rw [decide_eq_true_iff] at hslice
    by_contra hcon
    apply hslice
    apply slice_eq_of_agree
    intro j hj1 hj2
    apply hagree
    rcases Nat.lt_trichotomy y py with hyy | hyy | hyy
    · left
      have hm : y * cur.stride + cur.stride ≤ py * cur.stride := by
        have := Nat.mul_le_mul_right cur.stride (Nat.succ_le_of_lt hyy)
        rwa [Nat.succ_mul] at this
      omega
    · subst hyy
      have hxside : ¬ (sx ≤ px ∧ px < ex) := by
        intro hx
        exact hcon ⟨hx.1, hx.2, by omega, by omega⟩
      rcases Nat.lt_or_ge px sx with hpxs | hpxs
      · right
        have hm : (px + 1) * cur.format.bytes_per_pixel
            ≤ sx * cur.format.bytes_per_pixel :=
          Nat.mul_le_mul_right _ (by omega)
        omega
      · left
        have hpex : ex ≤ px := by
          by_contra hc
          exact hxside ⟨hpxs, by omega⟩
        have hm : ex * cur.format.bytes_per_pixel
            ≤ px * cur.format.bytes_per_pixel :=
          Nat.mul_le_mul_right _ hpex
        omega
    · right
      have hm : py * cur.stride + cur.stride ≤ y * cur.stride := by
        have := Nat.mul_le_mul_right cur.stride (Nat.succ_le_of_lt hyy)
        rwa [Nat.succ_mul] at this
      omega
  · rintro ⟨h1, h2, h3, h4⟩
    obtain ⟨k, hk, hne⟩ := hdiff
    refine ⟨py, ?_, ?_⟩
    · rw [List.mem_range'_1]
      omega
    · rw [decide_eq_true_iff]
      apply slice_ne_of_disagree _ _ _ _
        (py * cur.stride + px * cur.format.bytes_per_pixel + k) ?_ ?_ hne
      · have hm : sx * cur.format.bytes_per_pixel
            ≤ px * cur.format.bytes_per_pixel :=
          Nat.mul_le_mul_right _ h1
        omega
      · have hm : (px + 1) * cur.format.bytes_per_pixel
            ≤ ex * cur.format.bytes_per_pixel :=
          Nat.mul_le_mul_right _ (by omega)
        omega

-- ── Tile index arithmetic ────────────────────────────────────────

/-- A pixel coordinate `p < w` lies in tile `b` iff `b = p / bs`. -/
theorem tile_mem_iff (bs p w b : Nat) (hbs : 0 < bs) (hp : p < w) :
    (b * bs ≤ p ∧ p < min (b * bs + bs) w) ↔ b = p / bs := by
  have hdm := Nat.div_add_mod p bs
  have hml : p % bs < bs := Nat.mod_lt p hbs
  constructor
  · rintro ⟨h1, h2⟩
    have h2' : p < b * bs + bs := lt_of_lt_of_le h2 (min_le_left _ _)
    have hle : b ≤ p / bs := (Nat.le_div_iff_mul_le hbs).2 h1
    have hlt : p / bs < b + 1 := by
      rw [Nat.div_lt_iff_lt_mul hbs]
      calc p < b * bs + bs := h2'
        _ = (b + 1) * bs := (Nat.succ_mul b bs).symm
    omega
  · rintro rfl
    have e1 : p / bs * bs + p % bs = p := by
      rw [Nat.mul_comm]
      exact hdm
    exact ⟨by omega, lt_min (by omega) hp⟩

/-- The tile index of an in-range coordinate is below the tile count
`(w + bs - 1) / bs`. -/
theorem tile_index_lt (bs p w : Nat) (hbs : 0 < bs) (hp : p < w) :
    p / bs < (w + bs - 1) / bs := by
  have e1 : p / bs * bs + p % bs = p := by
    rw [Nat.mul_comm]
    exact Nat.div_add_mod p bs
  have hml : p % bs < bs := Nat.mod_lt p hbs
  have h2 : p / bs + 1 ≤ (w + bs - 1) / bs := by
    rw [Nat.le_div_iff_mul_le hbs, Nat.succ_mul]
    omega
  omega

-- ── Single-pixel surgery on a byte buffer ────────────────────────

/-- Replacing the byte range `[base, base+bpp)` leaves all other
positions unchanged. -/
theorem surgery_agree (old pix : List Nat) (base bpp : Nat)
    (hlen : pix.length = bpp) (hb : base + bpp ≤ old.length) :
    ∀ j, (j < base ∨ base + bpp ≤ j) →
      (old.take base ++ pix ++ old.drop (base + bpp)).get? j = old.get? j := by
  have hA : (old.take base).length = base := by
    rw [List.length_take]
    omega
  intro j hj
  rcases hj with hj | hj
  · rw [List.append_assoc, List.get?_append (by omega), List.get?_take hj]
  · rw [List.get?_append_right (by simp [hA, hlen]; omega)]
    rw [List.length_append, hA, hlen, List.get?_drop]
    congr 1
    omega

/-- If the replacement bytes differ from the old slice, some position in
the replaced range differs. -/
theorem surgery_diff (old pix : List Nat) (base bpp : Nat)
    (hlen : pix.length = bpp) (hb : base + bpp ≤ old.length)
    (hne : pix ≠ slice old base (base + bpp)) :
    ∃ k, k < bpp ∧
      (old.take base ++ pix ++ old.drop (base + bpp)).get? (base + k)
        ≠ old.get? (base + k) := by
  have hA : (old.take base).length = base := by
    rw [List.length_take]
    omega
  by_contra hcon
  push_neg at hcon
  apply hne
  apply List.ext_get?
  intro k
  by_cases hk : k < bpp
  · have hmid : (old.take base ++ pix ++ old.drop (base + bpp)).get? (base + k)
        = pix.get? k := by
      rw [List.append_assoc, List.get?_append_right (by omega)]
      rw [hA, List.get?_append (by omega), Nat.add_sub_cancel_left]
    calc pix.get? k
        = (old.take base ++ pix ++ old.drop (base + bpp)).get? (base + k) :=
          hmid.symm
      _ = old.get? (base + k) := hcon k hk
      _ = (slice old base (base + bpp)).get? k := by
          rw [slice_get?, if_pos (by omega)]
  · rw [List.get?_eq_none.2 (by omega)]
    rw [List.get?_eq_none.2]
    rw [slice]
    calc (List.take (base + bpp - base) (List.drop base old)).length
        ≤ base + bpp - base := by simp [List.length_take]
      _ ≤ k := by omega

-- ── changed_tiles on a single changed pixel ──────────────────────

/-- With equal-size frames differing exactly inside pixel `(px, py)`,
the changed-tile list is exactly the one tile containing that pixel. -/
theorem changed_tiles_single_pixel
    (d : DeltaDetector) (cur prev : RawScreenFrame) (px py : Nat)
    (hbs : 0 < d.block_size)
    (hpx : px < cur.width) (hpy : py < cur.height)
    (hstride : cur.width * cur.format.bytes_per_pixel ≤ cur.stride)
    (hagree : ∀ j,
      (j < py * cur.stride + px * cur.format.bytes_per_pixel ∨
       py * cur.stride + (px + 1) * cur.format.bytes_per_pixel ≤ j) →
      cur.data.get? j = prev.data.get? j)
    (hdiff : ∃ k, k < cur.format.bytes_per_pixel ∧
      cur.data.get? (py * cur.stride + px * cur.format.bytes_per_pixel + k)
        ≠ prev.data.get? (py * cur.stride + px * cur.format.bytes_per_pixel + k)) :
    d.changed_tiles cur prev =
      [{ x := px / d.block_size * d.block_size,
         y := py / d.block_size * d.block_size,
         width := min (px / d.block_size * d.block_size + d.block_size) cur.width
           - px / d.block_size * d.block_size,
         height := min (py / d.block_size * d.block_size + d.block_size) cur.height
           - py / d.block_size * d.block_size }] := by
  rw [DeltaDetector.changed_tiles]
  dsimp only
  refine flatMap_range_eq_singleton _ _ _ (py / d.block_size)
    (tile_index_lt _ _ _ hbs hpy) ?_ ?_
  · refine filterMap_range_eq_singleton _ _ _ (px / d.block_size)
      (tile_index_lt _ _ _ hbs hpx) ?_ ?_
    · rw [if_pos]
      rw [block_differs_single_pixel cur prev px py _ _ _ _ hpx hpy hstride
        (min_le_right _ _) (min_le_right _ _) hagree hdiff]
      have hxt := (tile_mem_iff d.block_size px cur.width
        (px / d.block_size) hbs hpx).2 rfl
      have hyt := (tile_mem_iff d.block_size py cur.height
        (py / d.block_size) hbs hpy).2 rfl
      exact ⟨hxt.1, hxt.2, hyt.1, hyt.2⟩
    · intro b hbx hneq
      rw [if_neg]
      rw [block_differs_single_pixel cur prev px py _ _ _ _ hpx hpy hstride
        (min_le_right _ _) (min_le_right _ _) hagree hdiff]
      rintro ⟨hc1, hc2, _, _⟩
      exact hneq ((tile_mem_iff _ px cur.width b hbs hpx).1 ⟨hc1, hc2⟩)
  · intro b hby hneq
    apply filterMap_range_eq_nil
    intro bx hbx
    rw [if_neg]
    rw [block_differs_single_pixel cur prev px py _ _ _ _ hpx hpy hstride
      (min_le_right _ _) (min_le_right _ _) hagree hdiff]
    rintro ⟨_, _, hc3, hc4⟩
    exact hneq ((tile_mem_iff _ py cur.height b hbs hpy).1 ⟨hc3, hc4⟩)

-- ── detect-level lemmas ──────────────────────────────────────────

theorem detect_fst_of_same_dims (d : DeltaDetector) (cur prev : RawScreenFrame)
    (hprev : d.previous_frame = some prev)
    (hw : prev.width = cur.width) (hh : prev.height = cur.height) :
    (d.detect cur).1 = d.detect_blocks cur prev := by
  rw [DeltaDetector.detect, hprev]
  dsimp only
  rw [if_pos ⟨hw, hh⟩]

theorem changed_tiles_of_same_data (d : DeltaDetector)
    (cur prev : RawScreenFrame) (hdata : prev.data = cur.data) :
    d.changed_tiles cur prev = [] := by
  rw [DeltaDetector.changed_tiles]
  dsimp only
  apply flatMap_range_eq_nil
  intro b hb
  apply filterMap_range_eq_nil
  intro bx hbx
  rw [if_neg]
  rw [DeltaDetector.block_differs]
  dsimp only
  simp [List.any_eq_true, hdata]

/-- C6 — `DeltaDetector` behaviour: (1,2) construction and `reset`
clear the stored frame; (3) with no stored frame `detect` yields a full
frame; (4) so does a dimension change; (5) a frame byte-identical to the
stored frame of equal dimensions yields `full_frame = false` with zero
changed blocks; (6) if the changed tiles are more than 80% of all tiles
(the exact-rational model of the f64 comparison) in a non-first frame,
the result collapses to a full frame; (7) changing a single pixel
(replacing the bytes of pixel `(px,py)` by different bytes) yields
exactly one changed block, and that block covers the pixel; with at
least two tiles in the grid the result is moreover not a full frame. -/
theorem C6_delta_detector :
    (∀ bs, (DeltaDetector.new bs).previous_frame = none) ∧
    (∀ d : DeltaDetector, d.reset.previous_frame = none) ∧
    (∀ (d : DeltaDetector) (cur : RawScreenFrame),
      d.previous_frame = none → (d.detect cur).1.full_frame = true) ∧
    (∀ (d : DeltaDetector) (cur prev : RawScreenFrame),
      d.previous_frame = some prev →
      ¬ (prev.width = cur.width ∧ prev.height = cur.height) →
      (d.detect cur).1.full_frame = true) ∧
    (∀ (d : DeltaDetector) (cur prev : RawScreenFrame),
      d.previous_frame = some prev →
      prev.width = cur.width → prev.height = cur.height →
      prev.data = cur.data →
      (d.detect cur).1.full_frame = false ∧
      (d.detect cur).1.changed_blocks = []) ∧
    (∀ (d : DeltaDetector) (cur prev : RawScreenFrame),
      d.previous_frame = some prev →
      prev.width = cur.width → prev.height = cur.height →
      d.changed_tiles cur prev ≠ [] →
      5 * (d.changed_tiles cur prev).length >
        4 * (((cur.width + d.block_size - 1) / d.block_size) *
             ((cur.height + d.block_size - 1) / d.block_size)) →
      (d.detect cur).1.full_frame = true) ∧
    (∀ (d : DeltaDetector) (cur prev : RawScreenFrame) (px py : Nat)
      (pix : List Nat),
      d.previous_frame = some prev →
      prev.width = cur.width → prev.height = cur.height →
      0 < d.block_size →
      px < cur.width → py < cur.height →
      cur.width * cur.format.bytes_per_pixel ≤ cur.stride →
      prev.data.length = cur.stride * cur.height →
      pix.length = cur.format.bytes_per_pixel →
      pix ≠ slice prev.data
        (py * cur.stride + px * cur.format.bytes_per_pixel)
        (py * cur.stride + px * cur.format.bytes_per_pixel
          + cur.format.bytes_per_pixel) →
      cur.data = prev.data.take
          (py * cur.stride + px * cur.format.bytes_per_pixel)
        ++ pix ++ prev.data.drop
          (py * cur.stride + px * cur.format.bytes_per_pixel
            + cur.format.bytes_per_pixel) →
      (d.detect cur).1.changed_blocks.length = 1 ∧
      (∀ b ∈ (d.detect cur).1.changed_blocks,
        b.x ≤ px ∧ px < b.x + b.width ∧ b.y ≤ py ∧ py < b.y + b.height) ∧
      (2 ≤ ((cur.width + d.block_size - 1) / d.block_size) *
           ((cur.height + d.block_size - 1) / d.block_size) →
        (d.detect cur).1.full_frame = false)) := by
  refine ⟨fun bs => rfl, fun d => rfl, ?_, ?_, ?_, ?_, ?_⟩
  · intro d cur hprev
    rw [DeltaDetector.detect, hprev]
  · intro d cur prev hprev hne
    rw [DeltaDetector.detect, hprev]
    dsimp only
    rw [if_neg hne]
  · intro d cur prev hprev hw hh hdata
    rw [detect_fst_of_same_dims d cur prev hprev hw hh]
    rw [DeltaDetector.detect_blocks]
    dsimp only
    rw [changed_tiles_of_same_data d cur prev hdata]
    exact ⟨rfl, rfl⟩
  · intro d cur prev hprev hw hh hnonempty hratio
    rw [detect_fst_of_same_dims d cur prev hprev hw hh]
    rw [DeltaDetector.detect_blocks]
    dsimp only
    have h1 : (d.changed_tiles cur prev).isEmpty = false := by
      rcases hct : d.changed_tiles cur prev with _ | ⟨a, l⟩
      · exact absurd hct hnonempty
      · rfl
    rw [h1]
    simp only [Bool.not_false, Bool.true_and, decide_eq_true_eq]
    exact hratio
  · intro d cur prev px py pix hprev hw hh hbs hpx hpy hstride hplen
      hpixlen hpixne hsurg
    have hbase : py * cur.stride + px * cur.format.bytes_per_pixel
        + cur.format.bytes_per_pixel ≤ prev.data.length := by
      have h1 : (px + 1) * cur.format.bytes_per_pixel
          ≤ cur.width * cur.format.bytes_per_pixel :=
        Nat.mul_le_mul_right _ (by omega)
      have h2 : py * cur.stride + cur.stride ≤ cur.height * cur.stride := by
        have := Nat.mul_le_mul_right cur.stride (Nat.succ_le_of_lt hpy)
        rwa [Nat.succ_mul] at this
      rw [hplen, Nat.mul_comm cur.stride cur.height]
      rw [Nat.succ_mul] at h1
      omega
    have hagree : ∀ j,
        (j < py * cur.stride + px * cur.format.bytes_per_pixel ∨
         py * cur.stride + (px + 1) * cur.format.bytes_per_pixel ≤ j) →
        cur.data.get? j = prev.data.get? j := by
      intro j hj
      rw [hsurg]
      apply surgery_agree prev.data pix _ _ hpixlen hbase
      rw [Nat.succ_mul] at hj
      omega
    have hdiff : ∃ k, k < cur.format.bytes_per_pixel ∧
        cur.data.get? (py * cur.stride + px * cur.format.bytes_per_pixel + k)
          ≠ prev.data.get?
            (py * cur.stride + px * cur.format.bytes_per_pixel + k) := by
      obtain ⟨k, hk, hne⟩ :=
        surgery_diff prev.data pix _ _ hpixlen hbase hpixne
      exact ⟨k, hk, by rw [hsurg]; exact hne⟩
    have hct := changed_tiles_single_pixel d cur prev px py hbs hpx hpy
      hstride hagree hdiff
    rw [detect_fst_of_same_dims d cur prev hprev hw hh]
    rw [DeltaDetector.detect_blocks]
    dsimp only
    rw [hct]
    simp only [List.isEmpty_cons, Bool.not_false, Bool.true_and,
      List.length_cons, List.length_nil]
    by_cases htot : 5 * (0 + 1) >
        4 * ((cur.width + d.block_size - 1) / d.block_size *
          ((cur.height + d.block_size - 1) / d.block_size))
    · rw [if_pos (by simp only [decide_eq_true_eq]; exact htot)]
      refine ⟨rfl, ?_, ?_⟩
      · intro b hb
        rw [List.mem_singleton] at hb
        subst hb
        exact ⟨Nat.zero_le _, by simpa using hpx, Nat.zero_le _,
          by simpa using hpy⟩
      · intro h2
        omega
    · rw [if_neg (by simp only [decide_eq_true_eq]; exact htot)]
      refine ⟨rfl, ?_, fun _ => by simp [htot]⟩
      intro b hb
      rw [List.mem_singleton] at hb
      subst hb
      dsimp only
      have hxt := (tile_mem_iff d.block_size px cur.width
        (px / d.block_size) hbs hpx).2 rfl
      have hyt := (tile_mem_iff d.block_size py cur.height
        (py / d.block_size) hbs hpy).2 rfl
      have hminx : px / d.block_size * d.block_size
          ≤ min (px / d.block_size * d.block_size + d.block_size) cur.width := by
        omega
      have hminy : py / d.block_size * d.block_size
          ≤ min (py / d.block_size * d.block_size + d.block_size) cur.height := by
        omega
      refine ⟨hxt.1, ?_, hyt.1, ?_⟩
      · omega
      · omega

/-- Previous frame of the C6 witness: 2×1 BGRA, all zero. -/
def c6prev : RawScreenFrame :=
  { width := 2, height := 1, stride := 8, format := .Bgra8,
    data := List.replicate 8 0, timestamp := 0 }

/-- Current frame of the C6 witness: pixel (1,0) changed to 9. -/
def c6cur : RawScreenFrame :=
  { width := 2, height := 1, stride := 8, format := .Bgra8,
    data := [0, 0, 0, 0, 9, 0, 0, 0], timestamp := 0 }

/-- Detector of the C6 witness: tile size 1, previous frame stored. -/
def c6det : DeltaDetector :=
  { previous_frame := some c6prev, block_size := 1 }

/-- Witness for C6 at the concrete single-pixel change: one changed
block, not a full frame (the grid has 2 tiles). -/
theorem C6_delta_detector_witness :
    c6det.previous_frame = some c6prev ∧
    c6prev.width = c6cur.width ∧
    c6cur.data = c6prev.data.take 4 ++ [9, 0, 0, 0] ++ c6prev.data.drop 8 ∧
    (c6det.detect c6cur).1.changed_blocks.length = 1 ∧
    (c6det.detect c6cur).1.full_frame = false := by
  have h := C6_delta_detector.2.2.2.2.2.2 c6det c6cur c6prev 1 0 [9, 0, 0, 0]
    (by decide) (by decide) (by decide) (by decide) (by decide) (by decide)
    (by decide) (by decide) (by decide) (by decide) (by decide)
  exact ⟨by decide, by decide, by decide, h.1, h.2.2 (by decide)⟩

-- ── Encoded / decoded frames (rdp/encoder.rs, rdp/decoder.rs) ────

/-- `EncodedFrame` — compressed frame for transmission. -/
structure EncodedFrame where
  frame_number : Nat
  timestamp : Nat
  width : Nat
  height : Nat
  data : List Nat
  is_full_frame : Bool
  block_count : Nat
  deriving DecidableEq, Repr

/-- The rows of one block emitted by
`AdaptiveEncoder::encode_delta_blocks` (`for row in 0..block.height`,
each row `w × bpp` source bytes); `y` is the absolute row
`block.y + row`. -/
def block_rows (source : RawScreenFrame) (bx bw : Nat) :
    Nat → Nat → List Nat
  | _, 0 => []
  | y, hh + 1 =>
    slice source.data
      (y * source.stride + bx * source.format.bytes_per_pixel)
      (y * source.stride + bx * source.format.bytes_per_pixel
        + bw * source.format.bytes_per_pixel)
    ++ block_rows source bx bw (y + 1) hh

/-- `AdaptiveEncoder::encode_delta_blocks`: leading little-endian `u32`
block count, then per block a 16-byte `(x, y, w, h)` header and the
tightly packed rows. -/
def encode_delta_blocks (blocks : List Block) (source : RawScreenFrame) :
    List Nat :=
  toLeBytes 4 blocks.length ++ blocks.flatMap fun block =>
    toLeBytes 4 block.x ++ toLeBytes 4 block.y ++ toLeBytes 4 block.width
      ++ toLeBytes 4 block.height
      ++ block_rows source block.x block.width block.y block.height

/-- `AdaptiveEncoder::encode_full_frame`: rows packed at `width × bpp`,
stride padding skipped. -/
def encode_full_frame (source : RawScreenFrame) : List Nat :=
  (List.range source.height).flatMap fun y =>
    slice source.data (y * source.stride)
      (y * source.stride + source.width * source.format.bytes_per_pixel)

/-- `AdaptiveEncoder::encode`. `compress` is the external zstd
collaborator (`zstd::encode_all` at the current compression level,
modelled as a total function since its error path only propagates).
The pair is (encoded frame, encoder state after the call). -/
def AdaptiveEncoder.encode (e : AdaptiveEncoder)
    (compress : Int → List Nat → List Nat)
    (delta : DeltaFrame) (source : RawScreenFrame) :
    EncodedFrame × AdaptiveEncoder :=
  let raw := if delta.full_frame then encode_full_frame source
    else encode_delta_blocks delta.changed_blocks source
  let compressed := compress e.compression_level raw
  ({ frame_number := delta.frame_number
     timestamp := delta.timestamp
     width := delta.width
     height := delta.height
     data := compressed
     is_full_frame := delta.full_frame
     block_count := delta.changed_blocks.length % 2 ^ 32 },
   { e with frame_count := e.frame_count + 1 })

/-- `DecodedFrame`. -/
structure DecodedFrame where
  width : Nat
  height : Nat
  is_full_frame : Bool
  data : List Nat
  block_count : Nat
  deriving DecidableEq, Repr

/-- `FrameDecoder` — persistent framebuffer. -/
structure FrameDecoder where
  frame_buffer : List Nat
  buf_width : Nat
  buf_height : Nat
  deriving DecidableEq, Repr

namespace FrameDecoder

/-- `FrameDecoder::new`. -/
def new : FrameDecoder :=
  { frame_buffer := [], buf_width := 0, buf_height := 0 }

/-- `FrameDecoder::decode` — decompress an encoded frame. `decompress`
is the external zstd collaborator (`zstd::decode_all`). -/
def decode (_ : FrameDecoder) (decompress : List Nat → List Nat)
    (encoded : EncodedFrame) : DecodedFrame :=
  { width := encoded.width
    height := encoded.height
    is_full_frame := encoded.is_full_frame
    data := decompress encoded.data
    block_count := encoded.block_count }

/-- `frame_buffer[a..a+len].copy_from_slice(xs)` (in-bounds in every
use covered by the theorems; the Rust code panics out of bounds). -/
def writeAt (fb : List Nat) (start : Nat) (xs : List Nat) : List Nat :=
  fb.take start ++ xs ++ fb.drop (start + xs.length)

/-- The inner `for row in 0..h` loop of
`FrameDecoder::apply_delta_frame`: consumes `w*bpp` bytes per row from
the front of `data` (the Rust `offset` cursor) and blits them at
`(y + row) * row_stride + x * bpp`. Returns the updated framebuffer and
the remaining bytes. -/
def apply_rows (row_stride x_bytes block_row_bytes : Nat) :
    Nat → Nat → List Nat → List Nat →
    Except TixError (List Nat × List Nat)
  | _, 0, data, fb => .ok (fb, data)
  | y, hh + 1, data, fb =>
    if data.length < block_row_bytes then
      .error (.Other "delta frame truncated (block data)")
    else
      apply_rows row_stride x_bytes block_row_bytes (y + 1) hh
        (data.drop block_row_bytes)
        (writeAt fb (y * row_stride + x_bytes) (data.take block_row_bytes))

/-- The outer `for _ in 0..block_count` loop of
`FrameDecoder::apply_delta_frame`: parses each 16-byte header and blits
the block's rows. -/
def apply_blocks (bpp row_stride : Nat) :
    Nat → List Nat → List Nat → Except TixError (List Nat)
  | 0, _, fb => .ok fb
  | c + 1, data, fb =>
    if data.length < 16 then
      .error (.Other "delta frame truncated (block header)")
    else
      let x := fromLeBytes (slice data 0 4)
      let y := fromLeBytes (slice data 4 8)
      let w := fromLeBytes (slice data 8 12)
      let h := fromLeBytes (slice data 12 16)
      match apply_rows row_stride (x * bpp) (w * bpp) y h (data.drop 16) fb with
      | .error e => .error e
      | .ok (fb, rest) => apply_blocks bpp row_stride c rest fb

/-- `FrameDecoder::apply_delta_frame`. -/
def apply_delta_frame (d : FrameDecoder) (data : List Nat) (bpp : Nat) :
    Except TixError FrameDecoder :=
  if data.length < 4 then
    .error (.Other "delta frame too short for block count")
  else
    match apply_blocks bpp (d.buf_width * bpp)
        (fromLeBytes (slice data 0 4)) (data.drop 4) d.frame_buffer with
    | .error e => .error e
    | .ok fb => .ok { d with frame_buffer := fb }

/-- `FrameDecoder::apply_full_frame`. -/
def apply_full_frame (d : FrameDecoder) (data : List Nat) (bpp : Nat) :
    Except TixError FrameDecoder :=
  let expected := d.buf_width * d.buf_height * bpp
  if data.length < expected then
    .error (.Other "full frame too short")
  else
    .ok { d with frame_buffer := writeAt d.frame_buffer 0 (data.take expected) }

/-- `FrameDecoder::apply`: reallocate a zeroed framebuffer on dimension
change, then patch in the full frame or the delta blocks. The pair is
(the returned `&frame_buffer`, decoder state after the call). -/
def apply (d : FrameDecoder) (frame : DecodedFrame) (bpp : Nat) :
    Except TixError (List Nat × FrameDecoder) :=
  let fb_size := frame.width * frame.height * bpp
  let d :=
    if frame.width ≠ d.buf_width ∨ frame.height ≠ d.buf_height then
      { frame_buffer := List.replicate fb_size 0,
        buf_width := frame.width, buf_height := frame.height }
    else d
  match (if frame.is_full_frame then d.apply_full_frame frame.data bpp
      else d.apply_delta_frame frame.data bpp) with
  | .error e => .error e
  | .ok d => .ok (d.frame_buffer, d)

end FrameDecoder

-- ── Helpers for the delta roundtrip (C7) ─────────────────────────

theorem slice_zero (l : List Nat) (b : Nat) : slice l 0 b = l.take b := by
  simp [slice]

theorem slice_length_of_le (l : List Nat) (a b : Nat) (hb : b ≤ l.length)
    (hab : a ≤ b) : (slice l a b).length = b - a := by
  simp only [slice, List.length_take, List.length_drop]
  omega

theorem writeAt_length (fb xs : List Nat) (s : Nat)
    (hs : s + xs.length ≤ fb.length) :
    (FrameDecoder.writeAt fb s xs).length = fb.length := by
  simp only [FrameDecoder.writeAt, List.length_append, List.length_take,
    List.length_drop]
  omega

theorem writeAt_get? (fb xs : List Nat) (s : Nat)
    (hs : s + xs.length ≤ fb.length) (j : Nat) :
    (FrameDecoder.writeAt fb s xs).get? j =
      if s ≤ j ∧ j < s + xs.length then xs.get? (j - s) else fb.get? j := by
  rw [FrameDecoder.writeAt]
  have hts : (fb.take s).length = s := by
    rw [List.length_take]
    omega
  by_cases h1 : j < s
  · rw [if_neg (by omega), List.append_assoc, List.get?_append (by omega),
      List.get?_take h1]
  · by_cases h2 : j < s + xs.length
    · rw [if_pos ⟨by omega, h2⟩, List.append_assoc,
        List.get?_append_right (by omega), hts, List.get?_append (by omega)]
    · rw [if_neg (by omega), List.append_assoc,
        List.get?_append_right (by omega), hts,
        List.get?_append_right (by omega), List.get?_drop]
      congr 1
      omega

theorem mul_add_div_mod (y X rs : Nat) (hX : X < rs) :
    (y * rs + X) / rs = y ∧ (y * rs + X) % rs = X := by
  have hrs : 0 < rs := by omega
  constructor
  · rw [Nat.mul_comm y rs, Nat.mul_add_div hrs, Nat.div_eq_of_lt hX]
    omega
  · rw [Nat.mul_comm y rs, Nat.mul_add_mod, Nat.mod_eq_of_lt hX]

/-- Effect of `apply_rows` on a framebuffer when fed exactly the bytes
`block_rows` produced: it consumes them, leaves the tail, and the
framebuffer ends up holding the source bytes at every written position
and its old bytes elsewhere. -/
theorem apply_rows_spec (source : RawScreenFrame) (rs x w : Nat)
    (hxw : x * source.format.bytes_per_pixel
      + w * source.format.bytes_per_pixel ≤ rs)
    (hstr : rs ≤ source.stride)
    (hslen : source.data.length = source.stride * source.height) :
    ∀ (h y : Nat) (tail fb : List Nat),
    y + h ≤ source.height →
    (y + h) * rs ≤ fb.length →
    ∃ fb', FrameDecoder.apply_rows rs (x * source.format.bytes_per_pixel)
        (w * source.format.bytes_per_pixel) y h
        (block_rows source x w y h ++ tail) fb = .ok (fb', tail) ∧
      fb'.length = fb.length ∧
      ∀ j,
        ((∃ r, r < h ∧ ∃ t, t < w * source.format.bytes_per_pixel ∧
            j = (y + r) * rs + x * source.format.bytes_per_pixel + t) →
          fb'.get? j = source.data.get? (j / rs * source.stride + j % rs)) ∧
        ((¬ ∃ r, r < h ∧ ∃ t, t < w * source.format.bytes_per_pixel ∧
            j = (y + r) * rs + x * source.format.bytes_per_pixel + t) →
          fb'.get? j = fb.get? j) := by
  intro h
  induction h with
  | zero =>
    intro y tail fb hyh hfb
    refine ⟨fb, rfl, rfl, fun j => ⟨?_, fun _ => rfl⟩⟩
    rintro ⟨r, hr, _⟩
    omega
  | succ hh ih =>
    intro y tail fb hyh hfb
    have hrow_start : y * source.stride + x * source.format.bytes_per_pixel
        + w * source.format.bytes_per_pixel ≤ source.data.length := by
      have h1 : y * source.stride + source.stride
          ≤ source.height * source.stride := by
        have := Nat.mul_le_mul_right source.stride
          (show y + 1 ≤ source.height by omega)
        rwa [Nat.succ_mul] at this
      rw [hslen, Nat.mul_comm source.stride source.height]
      omega
    have hrowlen : (slice source.data
        (y * source.stride + x * source.format.bytes_per_pixel)
        (y * source.stride + x * source.format.bytes_per_pixel
          + w * source.format.bytes_per_pixel)).length
        = w * source.format.bytes_per_pixel := by
      rw [slice_length_of_le _ _ _ (by omega) (by omega)]
      omega
    have hyrs : y * rs + rs ≤ (y + (hh + 1)) * rs := by
      have := Nat.mul_le_mul_right rs (show y + 1 ≤ y + (hh + 1) by omega)
      rwa [Nat.succ_mul] at this
    have hwb : y * rs + x * source.format.bytes_per_pixel
        + w * source.format.bytes_per_pixel ≤ fb.length := by
      omega
    have hfb1len : (FrameDecoder.writeAt fb
        (y * rs + x * source.format.bytes_per_pixel)
        (slice source.data
          (y * source.stride + x * source.format.bytes_per_pixel)
          (y * source.stride + x * source.format.bytes_per_pixel
            + w * source.format.bytes_per_pixel))).length = fb.length :=
      writeAt_length _ _ _ (by rw [hrowlen]; omega)
    obtain ⟨fb', heq, hlen, hchar⟩ := ih (y + 1) tail
      (FrameDecoder.writeAt fb (y * rs + x * source.format.bytes_per_pixel)
        (slice source.data
          (y * source.stride + x * source.format.bytes_per_pixel)
          (y * source.stride + x * source.format.bytes_per_pixel
            + w * source.format.bytes_per_pixel)))
      (by omega)
      (by
        rw [hfb1len]
        have : (y + 1 + hh) * rs = (y + (hh + 1)) * rs := by
          have e : y + 1 + hh = y + (hh + 1) := by omega
          rw [e]
        omega)
    rw [block_rows, List.append_assoc]
    rw [FrameDecoder.apply_rows]
    rw [if_neg (by
      rw [List.length_append, hrowlen]
      omega)]
    rw [take_app _ _ _ hrowlen, drop_app _ _ _ hrowlen]
    refine ⟨fb', heq, by rw [hlen, hfb1len], ?_⟩
    intro j
    have hwget := writeAt_get? fb
      (slice source.data
        (y * source.stride + x * source.format.bytes_per_pixel)
        (y * source.stride + x * source.format.bytes_per_pixel
          + w * source.format.bytes_per_pixel))
      (y * rs + x * source.format.bytes_per_pixel)
      (by rw [hrowlen]; omega) j
    rw [hrowlen] at hwget
    constructor
    · rintro ⟨r, hr, t, ht, hj⟩
      rcases r with _ | r'
      · simp only [Nat.add_zero] at hj
        rw [(hchar j).2 (by
          rintro ⟨r', hr', t', ht', hj'⟩
          have hm1 : (y + 1) * rs ≤ (y + 1 + r') * rs :=
            Nat.mul_le_mul_right _ (by omega)
          have hm2 : (y + 1) * rs = y * rs + rs := Nat.succ_mul y rs
          omega)]
        rw [hwget, if_pos ⟨by omega, by omega⟩]
        rw [slice_get?, if_pos (by omega)]
        have hdm := mul_add_div_mod y
          (x * source.format.bytes_per_pixel + t) rs (by omega)
        have hj' : j = y * rs + (x * source.format.bytes_per_pixel + t) := by
          omega
        have e1 : j / rs = y := by rw [hj']; exact hdm.1
        have e2 : j % rs = x * source.format.bytes_per_pixel + t := by
          rw [hj']; exact hdm.2
        rw [e1, e2]
        congr 1
        omega
      · refine (hchar j).1 ⟨r', by omega, t, ht, ?_⟩
        have e : y + 1 + r' = y + (r' + 1) := by omega
        rw [e]
        exact hj
    · intro hnc
      rw [(hchar j).2 (by
        rintro ⟨r', hr', t', ht', hj'⟩
        refine hnc ⟨r' + 1, by omega, t', ht', ?_⟩
        have e : y + (r' + 1) = y + 1 + r' := by omega
        rw [e]
        exact hj')]
      rw [hwget, if_neg (by
        rintro ⟨hp1, hp2⟩
        refine hnc ⟨0, by omega, j - (y * rs + x * source.format.bytes_per_pixel),
          by omega, ?_⟩
        simp only [Nat.add_zero]
        omega)]

/-- Field extraction from one encoded block (16-byte header + rows). -/
theorem parse_block_header (t1 t2 t3 t4 rest : List Nat)
    (h1 : t1.length = 4) (h2 : t2.length = 4) (h3 : t3.length = 4)
    (h4 : t4.length = 4) :
    slice (t1 ++ t2 ++ t3 ++ t4 ++ rest) 0 4 = t1 ∧
    slice (t1 ++ t2 ++ t3 ++ t4 ++ rest) 4 8 = t2 ∧
    slice (t1 ++ t2 ++ t3 ++ t4 ++ rest) 8 12 = t3 ∧
    slice (t1 ++ t2 ++ t3 ++ t4 ++ rest) 12 16 = t4 ∧
    (t1 ++ t2 ++ t3 ++ t4 ++ rest).drop 16 = rest ∧
    (t1 ++ t2 ++ t3 ++ t4 ++ rest).length = 16 + rest.length := by
  have d4 : (t1 ++ t2 ++ t3 ++ t4 ++ rest).drop 4 = t2 ++ (t3 ++ (t4 ++ rest)) := by
    simp only [List.append_assoc]
    exact drop_app _ _ 4 h1
  have d8 : (t1 ++ t2 ++ t3 ++ t4 ++ rest).drop 8 = t3 ++ (t4 ++ rest) := by
    rw [show (8 : Nat) = 4 + 4 from rfl, ← List.drop_drop, d4]
    exact drop_app _ _ 4 h2
  have d12 : (t1 ++ t2 ++ t3 ++ t4 ++ rest).drop 12 = t4 ++ rest := by
    rw [show (12 : Nat) = 8 + 4 from rfl, ← List.drop_drop, d8]
    exact drop_app _ _ 4 h3
  have d16 : (t1 ++ t2 ++ t3 ++ t4 ++ rest).drop 16 = rest := by
    rw [show (16 : Nat) = 12 + 4 from rfl, ← List.drop_drop, d12]
    exact drop_app _ _ 4 h4
  refine ⟨?_, ?_, ?_, ?_, d16, by simp [h1, h2, h3, h4]; omega⟩
  · rw [slice, List.drop_zero]
    simp only [List.append_assoc]
    exact take_app _ _ 4 h1
  · rw [slice, d4]
    exact take_app _ _ 4 h2
  · rw [slice, d8]
    exact take_app _ _ 4 h3
  · rw [slice, d12]
    exact take_app _ _ 4 h4

/-- Effect of `apply_blocks` when fed exactly the bytes the encoder's
per-block loop produced: every position inside an encoded block ends up
holding the corresponding source byte, all others keep their old
framebuffer byte. -/
theorem apply_blocks_spec (source : RawScreenFrame) (rs : Nat)
    (hstr : rs ≤ source.stride)
    (hslen : source.data.length = source.stride * source.height) :
    ∀ (blocks : List Block) (fb : List Nat),
    (∀ b ∈ blocks,
      (b.x + b.width) * source.format.bytes_per_pixel ≤ rs ∧
      b.y + b.height ≤ source.height ∧
      (b.y + b.height) * rs ≤ fb.length ∧
      b.x < 2 ^ 32 ∧ b.y < 2 ^ 32 ∧ b.width < 2 ^ 32 ∧ b.height < 2 ^ 32) →
    ∃ fb', FrameDecoder.apply_blocks source.format.bytes_per_pixel rs
        blocks.length
        (blocks.flatMap fun block =>
          toLeBytes 4 block.x ++ toLeBytes 4 block.y
            ++ toLeBytes 4 block.width ++ toLeBytes 4 block.height
            ++ block_rows source block.x block.width block.y block.height)
        fb = .ok fb' ∧
      fb'.length = fb.length ∧
      ∀ j,
        ((∃ b ∈ blocks, ∃ r, r < b.height ∧
            ∃ t, t < b.width * source.format.bytes_per_pixel ∧
            j = (b.y + r) * rs + b.x * source.format.bytes_per_pixel + t) →
          fb'.get? j = source.data.get? (j / rs * source.stride + j % rs)) ∧
        ((¬ ∃ b ∈ blocks, ∃ r, r < b.height ∧
            ∃ t, t < b.width * source.format.bytes_per_pixel ∧
            j = (b.y + r) * rs + b.x * source.format.bytes_per_pixel + t) →
          fb'.get? j = fb.get? j) := by
  intro blocks
  induction blocks with
  | nil =>
    intro fb _
    refine ⟨fb, rfl, rfl, fun j => ⟨?_, fun _ => rfl⟩⟩
    rintro ⟨b, hb, _⟩
    exact absurd hb (List.not_mem_nil b)
  | cons b rest ih =>
    intro fb hblocks
    obtain ⟨hbw, hbh, hbfb, hx32, hy32, hw32, hh32⟩ :=
      hblocks b (List.mem_cons_self b rest)
    obtain ⟨p1, p2, p3, p4, pdrop, plen⟩ := parse_block_header
      (toLeBytes 4 b.x) (toLeBytes 4 b.y) (toLeBytes 4 b.width)
      (toLeBytes 4 b.height)
      ((block_rows source b.x b.width b.y b.height) ++
        rest.flatMap fun block =>
          toLeBytes 4 block.x ++ toLeBytes 4 block.y
            ++ toLeBytes 4 block.width ++ toLeBytes 4 block.height
            ++ block_rows source block.x block.width block.y block.height)
      (toLeBytes_length 4 _) (toLeBytes_length 4 _) (toLeBytes_length 4 _)
      (toLeBytes_length 4 _)
    have hxw' : b.x * source.format.bytes_per_pixel
        + b.width * source.format.bytes_per_pixel ≤ rs := by
      rw [← Nat.add_mul]
      exact hbw
    obtain ⟨fb1, heq1, hlen1, hchar1⟩ := apply_rows_spec source rs b.x b.width
      hxw' hstr hslen b.height b.y
      (rest.flatMap fun block =>
        toLeBytes 4 block.x ++ toLeBytes 4 block.y
          ++ toLeBytes 4 block.width ++ toLeBytes 4 block.height
          ++ block_rows source block.x block.width block.y block.height)
      fb hbh hbfb
    obtain ⟨fb', heq2, hlen2, hchar2⟩ := ih fb1 (by
      intro b' hb'
      obtain ⟨q1, q2, q3, q4, q5, q6, q7⟩ :=
        hblocks b' (List.mem_cons_of_mem b hb')
      exact ⟨q1, q2, by rw [hlen1]; exact q3, q4, q5, q6, q7⟩)
    rw [List.flatMap_cons, List.length_cons]
    have hshape : (toLeBytes 4 b.x ++ toLeBytes 4 b.y ++ toLeBytes 4 b.width
          ++ toLeBytes 4 b.height
          ++ block_rows source b.x b.width b.y b.height)
        ++ (rest.flatMap fun block =>
          toLeBytes 4 block.x ++ toLeBytes 4 block.y
            ++ toLeBytes 4 block.width ++ toLeBytes 4 block.height
            ++ block_rows source block.x block.width block.y block.height)
        = toLeBytes 4 b.x ++ toLeBytes 4 b.y ++ toLeBytes 4 b.width
          ++ toLeBytes 4 b.height
          ++ (block_rows source b.x b.width b.y b.height
            ++ rest.flatMap fun block =>
              toLeBytes 4 block.x ++ toLeBytes 4 block.y
                ++ toLeBytes 4 block.width ++ toLeBytes 4 block.height
                ++ block_rows source block.x block.width block.y block.height) := by
      simp only [List.append_assoc]
    rw [hshape]
    rw [FrameDecoder.apply_blocks]
    rw [if_neg (by rw [plen]; omega)]
    rw [p1, p2, p3, p4, pdrop]
    rw [fromLeBytes_toLeBytes, fromLeBytes_toLeBytes, fromLeBytes_toLeBytes,
      fromLeBytes_toLeBytes]
    rw [Nat.mod_eq_of_lt (by exact lt_of_lt_of_le hx32 (by norm_num)),
      Nat.mod_eq_of_lt (by exact lt_of_lt_of_le hy32 (by norm_num)),
      Nat.mod_eq_of_lt (by exact lt_of_lt_of_le hw32 (by norm_num)),
      Nat.mod_eq_of_lt (by exact lt_of_lt_of_le hh32 (by norm_num))]
    dsimp only
    rw [heq1]
    refine ⟨fb', heq2, by rw [hlen2, hlen1], ?_⟩
    intro j
    constructor
    · rintro ⟨b', hb', r, hr, t, ht, hj⟩
      rcases List.mem_cons.1 hb' with hbb | hmem
      · subst hbb
        by_cases hrest : ∃ b'' ∈ rest, ∃ r', r' < b''.height ∧
            ∃ t', t' < b''.width * source.format.bytes_per_pixel ∧
            j = (b''.y + r') * rs + b''.x * source.format.bytes_per_pixel + t'
        · exact (hchar2 j).1 hrest
        · rw [(hchar2 j).2 hrest]
          exact (hchar1 j).1 ⟨r, hr, t, ht, hj⟩
      · exact (hchar2 j).1 ⟨b', hmem, r, hr, t, ht, hj⟩
    · intro hnc
      rw [(hchar2 j).2 (by
        rintro ⟨b', hb', rest'⟩
        exact hnc ⟨b', List.mem_cons_of_mem b hb', rest'⟩)]
      exact (hchar1 j).2 (by
        rintro ⟨r, hr, t, ht, hj⟩
        exact hnc ⟨b, List.mem_cons_self b rest, r, hr, t, ht, hj⟩)

/-- C7 — Encoder/decoder delta roundtrip: for a delta frame `D` whose
changed blocks lie within the source frame (whose stride is at least
`width × bpp`), decoding `encode(D, source)` and applying it with a
fresh decoder (framebuffer prefilled with zeros) succeeds and yields a
framebuffer in which every dirty block's pixels equal the source frame's
pixels at that block, and all other bytes remain zero. `compress` /
`decompress` are the external zstd collaborators, assumed mutually
inverse; the `< 2^32` bounds are the Rust `u32` field ranges. -/
theorem C7_delta_roundtrip
    (e : AdaptiveEncoder) (compress : Int → List Nat → List Nat)
    (decompress : List Nat → List Nat)
    (D : DeltaFrame) (source : RawScreenFrame)
    (hcd : ∀ lvl data, decompress (compress lvl data) = data)
    (hff : D.full_frame = false)
    (hdw : D.width = source.width) (hdh : D.height = source.height)
    (hstride : source.width * source.format.bytes_per_pixel ≤ source.stride)
    (hslen : source.data.length = source.stride * source.height)
    (hcount : D.changed_blocks.length < 2 ^ 32)
    (hblocks : ∀ b ∈ D.changed_blocks,
      b.x + b.width ≤ source.width ∧ b.y + b.height ≤ source.height ∧
      b.x < 2 ^ 32 ∧ b.y < 2 ^ 32 ∧ b.width < 2 ^ 32 ∧ b.height < 2 ^ 32) :
    ∃ fb d',
      FrameDecoder.new.apply
        (FrameDecoder.new.decode decompress (e.encode compress D source).1)
        source.format.bytes_per_pixel = .ok (fb, d') ∧
      fb.length = D.width * D.height * source.format.bytes_per_pixel ∧
      (∀ b ∈ D.changed_blocks, ∀ r, r < b.height →
        ∀ t, t < b.width * source.format.bytes_per_pixel →
        fb.get? ((b.y + r) * (D.width * source.format.bytes_per_pixel)
            + b.x * source.format.bytes_per_pixel + t)
          = source.data.get? ((b.y + r) * source.stride
            + b.x * source.format.bytes_per_pixel + t)) ∧
      (∀ j, j < D.width * D.height * source.format.bytes_per_pixel →
        (∀ b ∈ D.changed_blocks, ∀ r, r < b.height →
          ∀ t, t < b.width * source.format.bytes_per_pixel →
          j ≠ (b.y + r) * (D.width * source.format.bytes_per_pixel)
            + b.x * source.format.bytes_per_pixel + t) →
        fb.get? j = some 0) := by
  have henc : (e.encode compress D source).1 =
      { frame_number := D.frame_number, timestamp := D.timestamp,
        width := D.width, height := D.height,
        data := compress e.compression_level
          (encode_delta_blocks D.changed_blocks source),
        is_full_frame := false,
        block_count := D.changed_blocks.length % 2 ^ 32 } := by
    rw [AdaptiveEncoder.encode]
    dsimp only
    rw [hff]
    rfl
  have hdec : FrameDecoder.new.decode decompress (e.encode compress D source).1
      = { width := D.width, height := D.height, is_full_frame := false,
          data := encode_delta_blocks D.changed_blocks source,
          block_count := D.changed_blocks.length % 2 ^ 32 } := by
    rw [FrameDecoder.decode, henc]
    dsimp only
    rw [hcd]
  have hd0 : (if (D.width ≠ FrameDecoder.new.buf_width ∨
        D.height ≠ FrameDecoder.new.buf_height) then
      ({ frame_buffer := List.replicate
          (D.width * D.height * source.format.bytes_per_pixel) 0,
         buf_width := D.width, buf_height := D.height } : FrameDecoder)
      else FrameDecoder.new)
      = { frame_buffer := List.replicate
            (D.width * D.height * source.format.bytes_per_pixel) 0,
          buf_width := D.width, buf_height := D.height } := by
    by_cases hc : D.width ≠ FrameDecoder.new.buf_width ∨
        D.height ≠ FrameDecoder.new.buf_height
    · rw [if_pos hc]
    · rw [if_neg hc]
      push_neg at hc
      obtain ⟨hw0, hh0⟩ := hc
      rw [FrameDecoder.new] at hw0 hh0 ⊢
      dsimp only at hw0 hh0
      rw [hw0, hh0]
      simp
  have hrs : D.width * source.format.bytes_per_pixel ≤ source.stride := by
    rw [hdw]
    exact hstride
  have hcnt4 : D.changed_blocks.length % 256 ^ 4 = D.changed_blocks.length :=
    Nat.mod_eq_of_lt (lt_of_lt_of_le hcount (by norm_num))
  have hblocks' : ∀ b ∈ D.changed_blocks,
      (b.x + b.width) * source.format.bytes_per_pixel
        ≤ D.width * source.format.bytes_per_pixel ∧
      b.y + b.height ≤ source.height ∧
      (b.y + b.height) * (D.width * source.format.bytes_per_pixel)
        ≤ (List.replicate
            (D.width * D.height * source.format.bytes_per_pixel) 0).length ∧
      b.x < 2 ^ 32 ∧ b.y < 2 ^ 32 ∧ b.width < 2 ^ 32 ∧ b.height < 2 ^ 32 := by
    intro b hb
    obtain ⟨q1, q2, q3, q4, q5, q6⟩ := hblocks b hb
    refine ⟨Nat.mul_le_mul_right _ (by omega), q2, ?_, q3, q4, q5, q6⟩
    rw [List.length_replicate]
    calc (b.y + b.height) * (D.width * source.format.bytes_per_pixel)
        ≤ source.height * (D.width * source.format.bytes_per_pixel) :=
          Nat.mul_le_mul_right _ q2
      _ = D.width * source.height * source.format.bytes_per_pixel := by ring
      _ = D.width * D.height * source.format.bytes_per_pixel := by rw [hdh]
  obtain ⟨fb', heqB, hlenB, hcharB⟩ := apply_blocks_spec source
    (D.width * source.format.bytes_per_pixel) hrs hslen D.changed_blocks
    (List.replicate (D.width * D.height * source.format.bytes_per_pixel) 0)
    hblocks'
  have hbody : encode_delta_blocks D.changed_blocks source
      = toLeBytes 4 D.changed_blocks.length
        ++ D.changed_blocks.flatMap (fun block =>
          toLeBytes 4 block.x ++ toLeBytes 4 block.y
            ++ toLeBytes 4 block.width ++ toLeBytes 4 block.height
            ++ block_rows source block.x block.width block.y block.height) :=
    rfl
  have happly : FrameDecoder.new.apply
      (FrameDecoder.new.decode decompress (e.encode compress D source).1)
      source.format.bytes_per_pixel
      = .ok (fb', (⟨fb', D.width, D.height⟩ : FrameDecoder)) := by
    rw [hdec, FrameDecoder.apply]
    dsimp only
    rw [hd0]
    rw [if_neg (by simp)]
    rw [FrameDecoder.apply_delta_frame]
    dsimp only
    rw [if_neg (by
      rw [hbody, List.length_append, toLeBytes_length]
      omega)]
    rw [hbody, slice_zero, take_app _ _ 4 (toLeBytes_length 4 _),
      drop_app _ _ 4 (toLeBytes_length 4 _), fromLeBytes_toLeBytes, hcnt4]
    rw [heqB]
  refine ⟨fb', _, happly, ?_, ?_, ?_⟩
  · rw [hlenB, List.length_replicate]
  · intro b hb r hr t ht
    obtain ⟨q1, q2, _, _, _, _⟩ := hblocks b hb
    have hX : b.x * source.format.bytes_per_pixel + t
        < D.width * source.format.bytes_per_pixel := by
      have := Nat.mul_le_mul_right source.format.bytes_per_pixel
        (show b.x + b.width ≤ D.width by omega)
      rw [Nat.add_mul] at this
      omega
    have hdm := mul_add_div_mod (b.y + r)
      (b.x * source.format.bytes_per_pixel + t)
      (D.width * source.format.bytes_per_pixel) hX
    have hj : (b.y + r) * (D.width * source.format.bytes_per_pixel)
        + b.x * source.format.bytes_per_pixel + t
        = (b.y + r) * (D.width * source.format.bytes_per_pixel)
          + (b.x * source.format.bytes_per_pixel + t) := by omega
    rw [(hcharB _).1 ⟨b, hb, r, hr, t, ht, rfl⟩]
    rw [hj, hdm.1, hdm.2]
    congr 1
    omega
  · intro j hjlen hnone
    rw [(hcharB j).2 (by
      rintro ⟨b, hb, r, hr, t, ht, hj⟩
      exact hnone b hb r hr t ht hj)]
    rw [List.get?_eq_getElem?, List.getElem?_replicate, if_pos hjlen]

/-- Source frame of the C7 witness: 2×1 BGRA. -/
def c7src : RawScreenFrame :=
  { width := 2, height := 1, stride := 8, format := .Bgra8,
    data := [1, 2, 3, 4, 5, 6, 7, 8], timestamp := 0 }

/-- Delta frame of the C7 witness: one dirty 1×1 block at pixel (1,0). -/
def c7D : DeltaFrame :=
  { frame_number := 0, timestamp := 0, width := 2, height := 1,
    changed_blocks := [{ x := 1, y := 0, width := 1, height := 1 }],
    full_frame := false }

/-- Identity stand-ins for the zstd collaborator pair in the witness. -/
def c7comp : Int → List Nat → List Nat := fun _ data => data

/-- Identity decompressor matching `c7comp`. -/
def c7dec : List Nat → List Nat := fun data => data

/-- Witness for C7 at the concrete one-block delta: the decoder
framebuffer holds the source bytes at the dirty block and zeros
elsewhere. -/
theorem C7_delta_roundtrip_witness :
    c7D.full_frame = false ∧
    (FrameDecoder.new.apply
      (FrameDecoder.new.decode c7dec
        ((AdaptiveEncoder.new 1000).encode c7comp c7D c7src).1)
      c7src.format.bytes_per_pixel).isOk = true ∧
    FrameDecoder.new.apply
      (FrameDecoder.new.decode c7dec
        ((AdaptiveEncoder.new 1000).encode c7comp c7D c7src).1)
      c7src.format.bytes_per_pixel
      = .ok ([0, 0, 0, 0, 5, 6, 7, 8],
        (⟨[0, 0, 0, 0, 5, 6, 7, 8], 2, 1⟩ : FrameDecoder)) := by
  obtain ⟨fb, d', happ, _, _, _⟩ := C7_delta_roundtrip
    (AdaptiveEncoder.new 1000) c7comp c7dec c7D c7src
    (fun lvl data => rfl) (by decide) (by decide) (by decide) (by decide)
    (by decide) (by decide) (by decide)
  refine ⟨by decide, ?_, by decide⟩
  rw [happ]
  rfl
